import Mathlib

set_option maxHeartbeats 1000000

/-!
Shallow embedding of the cbindgen core: the renaming engine
(src/bindgen/rename.rs), the intake / path resolver / dependency walker /
emission driver (src/bindgen/library.rs) and the CLI driver (src/main.rs).

External collaborators that are not part of the sources (the syn parser, the
item converters of items.rs, the configuration loader, the textual writer) are
modelled from the specification; every such definition carries a doc comment
saying so.  Identifiers handled by the renaming engine are ASCII (Rust
identifiers), so the Unicode case maps of Rust are modelled by their ASCII
restrictions.
-/

namespace CB

/-! Basic ASCII character helpers, restrictions of Rust char case functions. -/

/-- ASCII restriction of Rust char::to_lowercase (identifiers are ASCII). -/
def ascii_to_lower (c : Char) : Char :=
  if 65 ≤ c.toNat && c.toNat ≤ 90 then Char.ofNat (c.toNat + 32) else c

/-- ASCII restriction of Rust char::to_uppercase (identifiers are ASCII). -/
def ascii_to_upper (c : Char) : Char :=
  if 97 ≤ c.toNat && c.toNat ≤ 122 then Char.ofNat (c.toNat - 32) else c

/-- ASCII restriction of Rust char::is_uppercase (identifiers are ASCII). -/
def is_uppercase_ascii (c : Char) : Bool :=
  65 ≤ c.toNat && c.toNat ≤ 90

def is_lower_alpha (c : Char) : Bool := 97 ≤ c.toNat && c.toNat ≤ 122

def is_ascii_digit (c : Char) : Bool := 48 ≤ c.toNat && c.toNat ≤ 57

/-! The renaming engine, rename.rs. -/

/-- rename.rs IdentifierType: the kind of identifier being renamed. -/
inductive IdentifierType where
  | StructMember
  | EnumVariant
  | FunctionArg
deriving DecidableEq

/-- rename.rs IdentifierType::to_str, the GeckoCase role marker. -/
def IdentifierType.to_str : IdentifierType → String
  | .StructMember => "m"
  | .EnumVariant => ""
  | .FunctionArg => "a"

/-- rename.rs RenameRule. -/
inductive RenameRule where
  | None
  | GeckoCase
  | LowerCase
  | UpperCase
  | PascalCase
  | CamelCase
  | SnakeCase
  | ScreamingSnakeCase
deriving DecidableEq

/-- The loop of the SnakeCase arm of apply_to_pascal_case: an underscore is
inserted before every uppercase character that is not at index 0, and every
character is lowercased.  The flag carries the source condition i == 0. -/
def snake_loop (first : Bool) : List Char → List Char
  | [] => []
  | c :: cs =>
    (if is_uppercase_ascii c && !first then ['_'] else []) ++
      (ascii_to_lower c :: snake_loop false cs)

/-- The loop of the ScreamingSnakeCase arm of apply_to_pascal_case: same as
snake_loop but uppercases every character. -/
def screaming_snake_loop (first : Bool) : List Char → List Char
  | [] => []
  | c :: cs =>
    (if is_uppercase_ascii c && !first then ['_'] else []) ++
      (ascii_to_upper c :: screaming_snake_loop false cs)

/-- The loop shared by the PascalCase and CamelCase arms of
apply_to_snake_case: underscores are dropped and make the next character
uppercase; is_uppercase is the flag threaded through the loop currently. -/
def pascal_loop (is_uppercase : Bool) : List Char → List Char
  | [] => []
  | c :: cs =>
    if c = '_' then pascal_loop true cs
    else if is_uppercase then ascii_to_upper c :: pascal_loop false cs
    else c :: pascal_loop false cs

/-- rename.rs RenameRule::apply_to_pascal_case. -/
def RenameRule.apply_to_pascal_case (r : RenameRule) (text : String)
    (context : IdentifierType) : String :=
  if text.length = 0 then "" else
  match r with
  | .None => text
  | .GeckoCase => context.to_str ++ text
  | .LowerCase => String.mk (text.data.map ascii_to_lower)
  | .UpperCase => String.mk (text.data.map ascii_to_upper)
  | .PascalCase => text
  | .CamelCase =>
    match text.data with
    | [] => ""
    | c :: cs => String.mk (ascii_to_lower c :: cs)
  | .SnakeCase => String.mk (snake_loop true text.data)
  | .ScreamingSnakeCase => String.mk (screaming_snake_loop true text.data)

/-- rename.rs RenameRule::apply_to_snake_case.  The GeckoCase arm strips one
leading underscore and then applies the PascalCase arm (inlined here as
pascal_loop, which is what the recursive source call computes). -/
def RenameRule.apply_to_snake_case (r : RenameRule) (text : String)
    (context : IdentifierType) : String :=
  if text.length = 0 then "" else
  match r with
  | .None => text
  | .GeckoCase =>
    let stripped : List Char :=
      match text.data with
      | '_' :: rest => rest
      | l => l
    context.to_str ++ String.mk (pascal_loop true stripped)
  | .LowerCase => String.mk (text.data.map ascii_to_lower)
  | .UpperCase => String.mk (text.data.map ascii_to_upper)
  | .PascalCase => String.mk (pascal_loop true text.data)
  | .CamelCase => String.mk (pascal_loop false text.data)
  | .SnakeCase => text
  | .ScreamingSnakeCase => String.mk (text.data.map ascii_to_upper)

/-- The alias table recognized by rename.rs RenameRule::from_str. -/
def rename_rule_aliases : List String :=
  ["none", "None",
   "mGeckoCase", "GeckoCase", "gecko_case",
   "lowercase", "LowerCase", "lower_case",
   "UPPERCASE", "UpperCase", "upper_case",
   "PascalCase", "pascal_case",
   "camelCase", "CamelCase", "camel_case",
   "snake_case", "SnakeCase",
   "SCREAMING_SNAKE_CASE", "ScreamingSnakeCase", "screaming_snake_case"]

/-- rename.rs RenameRule::from_str (a Rust match on string literals is a chain
of equality tests, translated literally). -/
def RenameRule.from_str (s : String) : Except String RenameRule :=
  if s = "none" then .ok .None
  else if s = "None" then .ok .None
  else if s = "mGeckoCase" then .ok .GeckoCase
  else if s = "GeckoCase" then .ok .GeckoCase
  else if s = "gecko_case" then .ok .GeckoCase
  else if s = "lowercase" then .ok .LowerCase
  else if s = "LowerCase" then .ok .LowerCase
  else if s = "lower_case" then .ok .LowerCase
  else if s = "UPPERCASE" then .ok .UpperCase
  else if s = "UpperCase" then .ok .UpperCase
  else if s = "upper_case" then .ok .UpperCase
  else if s = "PascalCase" then .ok .PascalCase
  else if s = "pascal_case" then .ok .PascalCase
  else if s = "camelCase" then .ok .CamelCase
  else if s = "CamelCase" then .ok .CamelCase
  else if s = "camel_case" then .ok .CamelCase
  else if s = "snake_case" then .ok .SnakeCase
  else if s = "SnakeCase" then .ok .SnakeCase
  else if s = "SCREAMING_SNAKE_CASE" then .ok .ScreamingSnakeCase
  else if s = "ScreamingSnakeCase" then .ok .ScreamingSnakeCase
  else if s = "screaming_snake_case" then .ok .ScreamingSnakeCase
  else .error ("unrecognized RenameRule: '" ++ s ++ "'")

/-! The declaration model.  The item structures live in items.rs, which is not
among the sources; their shapes are modelled from the specification (spec
section 3), while everything library.rs does with them is translated from the
source. -/

/-- library.rs Repr: the layout hint of aggregates and enums. -/
inductive Repr where
  | none
  | c
  | u8
  | u16
  | u32
deriving DecidableEq

/-- Modelled from the spec: the type algebra (spec section 3); items.rs is not
among the sources. -/
inductive Ty where
  | primitive (name : String)
  | pointer (is_const : Bool) (target : Ty)
  | array (elem : Ty) (len : Nat)
  | path (name : String) (generics : List Ty)
  | funcPtr (args : List Ty) (ret : Ty)

mutual

def tyDecEq : (a b : Ty) → Decidable (a = b)
  | .primitive n₁, .primitive n₂ =>
    match String.decEq n₁ n₂ with
    | isTrue h => isTrue (by rw [h])
    | isFalse h => isFalse (fun he => by injection he with h₁; exact h h₁)
  | .pointer c₁ t₁, .pointer c₂ t₂ =>
    match instDecidableEqBool c₁ c₂, tyDecEq t₁ t₂ with
    | isTrue h₁, isTrue h₂ => isTrue (by rw [h₁, h₂])
    | isFalse h₁, _ => isFalse (fun he => by injection he with ha hb; exact h₁ ha)
    | _, isFalse h₂ => isFalse (fun he => by injection he with ha hb; exact h₂ hb)
  | .array t₁ n₁, .array t₂ n₂ =>
    match tyDecEq t₁ t₂, Nat.decEq n₁ n₂ with
    | isTrue h₁, isTrue h₂ => isTrue (by rw [h₁, h₂])
    | isFalse h₁, _ => isFalse (fun he => by injection he with ha hb; exact h₁ ha)
    | _, isFalse h₂ => isFalse (fun he => by injection he with ha hb; exact h₂ hb)
  | .path n₁ g₁, .path n₂ g₂ =>
    match String.decEq n₁ n₂, tyListDecEq g₁ g₂ with
    | isTrue h₁, isTrue h₂ => isTrue (by rw [h₁, h₂])
    | isFalse h₁, _ => isFalse (fun he => by injection he with ha hb; exact h₁ ha)
    | _, isFalse h₂ => isFalse (fun he => by injection he with ha hb; exact h₂ hb)
  | .funcPtr a₁ r₁, .funcPtr a₂ r₂ =>
    match tyListDecEq a₁ a₂, tyDecEq r₁ r₂ with
    | isTrue h₁, isTrue h₂ => isTrue (by rw [h₁, h₂])
    | isFalse h₁, _ => isFalse (fun he => by injection he with ha hb; exact h₁ ha)
    | _, isFalse h₂ => isFalse (fun he => by injection he with ha hb; exact h₂ hb)
  | .primitive _, .pointer _ _ => isFalse (fun h => by injection h)
  | .primitive _, .array _ _ => isFalse (fun h => by injection h)
  | .primitive _, .path _ _ => isFalse (fun h => by injection h)
  | .primitive _, .funcPtr _ _ => isFalse (fun h => by injection h)
  | .pointer _ _, .primitive _ => isFalse (fun h => by injection h)
  | .pointer _ _, .array _ _ => isFalse (fun h => by injection h)
  | .pointer _ _, .path _ _ => isFalse (fun h => by injection h)
  | .pointer _ _, .funcPtr _ _ => isFalse (fun h => by injection h)
  | .array _ _, .primitive _ => isFalse (fun h => by injection h)
  | .array _ _, .pointer _ _ => isFalse (fun h => by injection h)
  | .array _ _, .path _ _ => isFalse (fun h => by injection h)
  | .array _ _, .funcPtr _ _ => isFalse (fun h => by injection h)
  | .path _ _, .primitive _ => isFalse (fun h => by injection h)
  | .path _ _, .pointer _ _ => isFalse (fun h => by injection h)
  | .path _ _, .array _ _ => isFalse (fun h => by injection h)
  | .path _ _, .funcPtr _ _ => isFalse (fun h => by injection h)
  | .funcPtr _ _, .primitive _ => isFalse (fun h => by injection h)
  | .funcPtr _ _, .pointer _ _ => isFalse (fun h => by injection h)
  | .funcPtr _ _, .array _ _ => isFalse (fun h => by injection h)
  | .funcPtr _ _, .path _ _ => isFalse (fun h => by injection h)

def tyListDecEq : (a b : List Ty) → Decidable (a = b)
  | [], [] => isTrue rfl
  | [], _ :: _ => isFalse (fun h => by injection h)
  | _ :: _, [] => isFalse (fun h => by injection h)
  | x :: xs, y :: ys =>
    match tyDecEq x y, tyListDecEq xs ys with
    | isTrue h₁, isTrue h₂ => isTrue (by rw [h₁, h₂])
    | isFalse h₁, _ => isFalse (fun he => by injection he with ha hb; exact h₁ ha)
    | _, isFalse h₂ => isFalse (fun he => by injection he with ha hb; exact h₂ hb)

end

instance : DecidableEq Ty := tyDecEq

mutual

/-- Modelled from the spec: every named reference inside a type, in source
order; pointer targets, array elements and function pointer parameters and
return all count (spec section 4.4). -/
def Ty.pathRefs : Ty → List String
  | .primitive _ => []
  | .pointer _ t => t.pathRefs
  | .array t _ => t.pathRefs
  | .path n gs => n :: pathRefsList gs
  | .funcPtr as r => pathRefsList as ++ r.pathRefs

def pathRefsList : List Ty → List String
  | [] => []
  | t :: ts => t.pathRefs ++ pathRefsList ts

end

/-- Modelled from the spec: an annotation set is a mapping from keys to values
parsed from documentation comments (spec section 3). -/
def AnnotationSet := List (String × String)
deriving DecidableEq

/-- Modelled from the spec: an enumeration (spec section 3). -/
structure Enum where
  name : String
  annotations : AnnotationSet
  repr : Repr
  variants : List (String × Option Int)
deriving DecidableEq

/-- Modelled from the spec: a concrete aggregate (spec section 3). -/
structure Struct where
  name : String
  annotations : AnnotationSet
  fields : List (String × Ty)
  generic_params : List String
deriving DecidableEq

/-- Modelled from the spec: an opaque aggregate (spec section 3). -/
structure OpaqueStruct where
  name : String
  annotations : AnnotationSet
deriving DecidableEq

/-- Modelled from the spec: a type alias with no generics (spec section 3). -/
structure Typedef where
  name : String
  annotations : AnnotationSet
  aliased : Ty
deriving DecidableEq

/-- Modelled from the spec: a parameterized type alias whose body is a named
reference (spec section 3). -/
structure Specialization where
  name : String
  annotations : AnnotationSet
  generic_params : List String
  aliased : Ty
deriving DecidableEq

/-- Modelled from the spec: a C-ABI function (spec section 3). -/
structure Function where
  name : String
  annotations : AnnotationSet
  ret : Ty
  args : List (String × Ty)
  extern_decl : Bool
deriving DecidableEq

/-- library.rs PathValue: the tagged union of the five item forms. -/
inductive PathValue where
  | Enum (x : Enum)
  | Struct (x : Struct)
  | OpaqueStruct (x : OpaqueStruct)
  | Typedef (x : Typedef)
  | Specialization (x : Specialization)
deriving DecidableEq

/-- library.rs PathValue::name. -/
def PathValue.name : PathValue → String
  | .Enum x => x.name
  | .Struct x => x.name
  | .OpaqueStruct x => x.name
  | .Typedef x => x.name
  | .Specialization x => x.name

def PathValue.isEnum : PathValue → Bool
  | .Enum _ => true
  | _ => false

def PathValue.isStruct : PathValue → Bool
  | .Struct _ => true
  | _ => false

def PathValue.isOpaque : PathValue → Bool
  | .OpaqueStruct _ => true
  | _ => false

def PathValue.isTypedef : PathValue → Bool
  | .Typedef _ => true
  | _ => false

def PathValue.isSpecialization : PathValue → Bool
  | .Specialization _ => true
  | _ => false

/-! Ordered by-name tables.  The source stores every table in a BTreeMap,
modelled here as an association list sorted by key whose insert replaces the
value on an equal key (the BTreeMap::insert behaviour). -/

/-- BTreeMap::insert on a key-sorted association list: replaces on equal key. -/
def btInsert {V : Type} (k : String) (v : V) :
    List (String × V) → List (String × V)
  | [] => [(k, v)]
  | (k₁, v₁) :: rest =>
    match compare k k₁ with
    | .lt => (k, v) :: (k₁, v₁) :: rest
    | .eq => (k, v) :: rest
    | .gt => (k₁, v₁) :: btInsert k v rest

/-- BTreeMap::get on an association list. -/
def alookup {V : Type} (k : String) : List (String × V) → Option V
  | [] => Option.none
  | (k₁, v₁) :: rest => if k = k₁ then some v₁ else alookup k rest

/-- config.rs Language (C or C++ output). -/
inductive Language where
  | C
  | Cxx
deriving DecidableEq

/-- Modelled from the spec: the configuration fields the core reads (config.rs
is not among the sources): output language and the per-role rename rules
(spec sections 4.6 and 6). -/
structure Config where
  language : Language
  expand : Bool
  field_rename_rule : RenameRule
  variant_rename_rule : RenameRule
  arg_rename_rule : RenameRule
deriving DecidableEq

/-- library.rs Library: the six by-name tables plus the binding crate name. -/
structure Library where
  bindings_crate_name : String
  config : Config
  enums : List (String × Enum)
  structs : List (String × Struct)
  opaque_structs : List (String × OpaqueStruct)
  typedefs : List (String × Typedef)
  specializations : List (String × Specialization)
  functions : List (String × Function)
deriving DecidableEq

/-- library.rs Library::blank. -/
def Library.blank (bindings_crate_name : String) (config : Config) : Library :=
  ⟨bindings_crate_name, config, [], [], [], [], [], []⟩

/-! Intake: Library::parse_crate_mod.  The parsed declaration stream (syn
items) and the results of the external converters of items.rs are inputs of
the model: parse_crate_mod only pattern-matches on them. -/

deriving instance DecidableEq for Except

/-- Modelled from the spec: a foreign item inside an extern block, carrying
the outcome of AnnotationSet::parse on its doc comment and the outcome of
Function::convert. -/
inductive ForeignItemNode where
  | fn (name : String) (doc : Except String AnnotationSet)
       (conv : Except String Function)
  | other
deriving DecidableEq

/-- Modelled from the spec: an extern block with its ABI flag. -/
structure ForeignBlock where
  abi_is_c : Bool
  items : List ForeignItemNode
deriving DecidableEq

/-- Modelled from the spec: one parsed declaration as consumed by
parse_crate_mod, with attribute flags and external conversion outcomes. -/
inductive ItemNode where
  | ForeignMod (block : ForeignBlock)
  | Fn (name : String) (no_mangle : Bool) (abi_is_c : Bool)
       (doc : Except String AnnotationSet) (conv : Except String Function)
  | StructDecl (name : String) (repr_c : Bool)
       (doc : Except String AnnotationSet) (conv : Except String Struct)
  | EnumDecl (name : String) (has_lifetimes has_ty_params has_where : Bool)
       (doc : Except String AnnotationSet) (conv : Except String Enum)
  | TyDecl (name : String) (has_lifetimes has_ty_params : Bool)
       (doc : Except String AnnotationSet)
       (spec_conv : Except String Specialization)
       (td_conv : Except String Typedef)
  | other
deriving DecidableEq

/-- AnnotationSet::parse with the warn-and-empty fallback of parse_crate_mod:
a malformed annotation block logs a warning and yields the empty set. -/
def annotOf : Except String AnnotationSet → AnnotationSet
  | .ok a => a
  | .error _ => []

/-- One iteration of the Library::parse_crate_mod loop (library.rs 140-317). -/
def Library.parse_item (lib : Library) (crate_name : String) :
    ItemNode → Library
  | .ForeignMod block =>
    if !block.abi_is_c then lib
    else
      block.items.foldl (fun l fi =>
        match fi with
        | .fn _ _ conv =>
          if crate_name ≠ l.bindings_crate_name then l
          else
            match conv with
            | .ok func => { l with functions := btInsert func.name func l.functions }
            | .error _ => l
        | .other => l) lib
  | .Fn _ no_mangle abi_is_c _ conv =>
    if crate_name ≠ lib.bindings_crate_name then lib
    else if no_mangle && abi_is_c then
      match conv with
      | .ok func => { lib with functions := btInsert func.name func lib.functions }
      | .error _ => lib
    else lib
  | .StructDecl name repr_c doc conv =>
    let annotations := annotOf doc
    if repr_c then
      match conv with
      | .ok st => { lib with structs := btInsert name st lib.structs }
      | .error _ =>
        { lib with opaque_structs := btInsert name ⟨name, annotations⟩ lib.opaque_structs }
    else
      { lib with opaque_structs := btInsert name ⟨name, annotations⟩ lib.opaque_structs }
  | .EnumDecl name has_lifetimes has_ty_params has_where doc conv =>
    if has_lifetimes || has_ty_params || has_where then lib
    else
      let annotations := annotOf doc
      match conv with
      | .ok en => { lib with enums := btInsert name en lib.enums }
      | .error _ =>
        { lib with opaque_structs := btInsert name ⟨name, annotations⟩ lib.opaque_structs }
  | .TyDecl name has_lifetimes has_ty_params _doc spec_conv td_conv =>
    (match spec_conv with
     | .ok sp => { lib with specializations := btInsert name sp lib.specializations }
     | .error _ =>
       if has_lifetimes || has_ty_params then lib
       else
         match td_conv with
         | .ok td => { lib with typedefs := btInsert name td lib.typedefs }
         | .error _ => lib)
  | .other => lib

/-- library.rs Library::parse_crate_mod: process the declarations of one crate
module in parser order. -/
def Library.parse_crate_mod (lib : Library) (crate_name : String)
    (items : List ItemNode) : Library :=
  items.foldl (fun l it => l.parse_item crate_name it) lib

/-- library.rs Library::resolve_path: probe the five item tables in a fixed
order and return the first match. -/
def Library.resolve_path (lib : Library) (p : String) : Option PathValue :=
  match alookup p lib.enums with
  | some x => some (.Enum x)
  | Option.none =>
  match alookup p lib.structs with
  | some x => some (.Struct x)
  | Option.none =>
  match alookup p lib.opaque_structs with
  | some x => some (.OpaqueStruct x)
  | Option.none =>
  match alookup p lib.typedefs with
  | some x => some (.Typedef x)
  | Option.none =>
  match alookup p lib.specializations with
  | some x => some (.Specialization x)
  | Option.none => Option.none

/-! The dependency walker.  The graph operations add_deps_for_path and
add_deps_for_path_deps are translated from library.rs; the per-variant
dependency contributions (the add_deps methods of items.rs) are modelled from
spec section 4.4 as lists of walker calls. -/

/-- library.rs DependencyGraph: the emission order plus the visited set (the
HashSet is modelled as the list of inserted names; the source only inserts a
name after checking it is absent). -/
structure DependencyGraph where
  order : List PathValue
  items : List String
deriving DecidableEq

/-- A single call an item makes back into the walker: a full visit
(add_deps_for_path) or a dependencies-only visit (add_deps_for_path_deps). -/
inductive DepCall where
  | full (p : String)
  | depsOnly (p : String)
deriving DecidableEq

/-- Modelled from the spec: aggregate dependencies are every named reference
inside every field type, in source order (spec section 4.4). -/
def Struct.depCalls (s : Struct) : List DepCall :=
  (s.fields.foldr (fun (f : String × Ty) acc => f.2.pathRefs ++ acc) []).map
    DepCall.full

/-- Modelled from the spec: typedef dependencies are the named references of
the single aliased type (spec section 4.4). -/
def Typedef.depCalls (t : Typedef) : List DepCall :=
  t.aliased.pathRefs.map DepCall.full

/-- Modelled from the spec: specialization dependencies are those of the body
type, followed by a dependencies-only visit for the named references inside
each generic argument (spec section 4.4). -/
def Specialization.depCalls (s : Specialization) : List DepCall :=
  s.aliased.pathRefs.map DepCall.full ++
    (match s.aliased with
     | .path _ gs => (pathRefsList gs).map DepCall.depsOnly
     | _ => [])

/-- Modelled from the spec: a function contributes the dependencies of every
parameter type and of the return type (spec section 4.4). -/
def Function.depCalls (f : Function) : List DepCall :=
  ((f.args.foldr (fun (a : String × Ty) acc => a.2.pathRefs ++ acc) []) ++
    f.ret.pathRefs).map DepCall.full

/-- library.rs PathValue::add_deps dispatch: enums and opaque aggregates
contribute nothing; the other variants contribute their item's calls. -/
def PathValue.depCalls : PathValue → List DepCall
  | .Enum _ => []
  | .OpaqueStruct _ => []
  | .Struct s => s.depCalls
  | .Typedef t => t.depCalls
  | .Specialization s => s.depCalls

mutual

/-- library.rs Library::add_deps_for_path (lines 339-351): resolve the name;
a miss or an already-visited name leaves the graph unchanged; otherwise insert
the name into the visited set, recurse into the dependencies of the resolved
value, then append the value to the order.  The fuel argument bounds the
recursion depth (the source recursion terminates because the visited set is
bounded by the finite name universe; every property proved below holds for
every fuel). -/
def Library.add_deps_for_path (lib : Library) :
    Nat → String → DependencyGraph → DependencyGraph
  | 0, _, out => out
  | fuel + 1, p, out =>
    match lib.resolve_path p with
    | Option.none => out
    | some value =>
      if out.items.contains p then out
      else
        let g₁ : DependencyGraph := ⟨out.order, p :: out.items⟩
        let g₂ := value.depCalls.foldl (fun g c =>
          match c with
          | DepCall.full q => lib.add_deps_for_path fuel q g
          | DepCall.depsOnly q => lib.add_deps_for_path_deps fuel q g) g₁
        ⟨g₂.order ++ [value], g₂.items⟩

/-- library.rs Library::add_deps_for_path_deps (lines 353-359): resolve the
name and recurse into the dependencies of the value without visiting it. -/
def Library.add_deps_for_path_deps (lib : Library) :
    Nat → String → DependencyGraph → DependencyGraph
  | 0, _, out => out
  | fuel + 1, p, out =>
    match lib.resolve_path p with
    | Option.none => out
    | some value =>
      value.depCalls.foldl (fun g c =>
        match c with
        | DepCall.full q => lib.add_deps_for_path fuel q g
        | DepCall.depsOnly q => lib.add_deps_for_path_deps fuel q g) out

end

/-- Run the walker calls an item issues, in order (the fold both recursive
walker bodies perform). -/
def Library.run_dep_calls (lib : Library) (fuel : Nat) (calls : List DepCall)
    (out : DependencyGraph) : DependencyGraph :=
  calls.foldl (fun g c =>
    match c with
    | DepCall.full q => lib.add_deps_for_path fuel q g
    | DepCall.depsOnly q => lib.add_deps_for_path_deps fuel q g) out

/-! The specialization engine, modelled from spec section 4.5 (items.rs is
not among the sources). -/

mutual

/-- Modelled from the spec: substitution of generic parameters, replacing
every named reference whose head is a parameter by the mapped argument and
descending into pointers, arrays and function pointers (spec section 9). -/
def substTy (m : List (String × Ty)) : Ty → Ty
  | .primitive n => .primitive n
  | .pointer c t => .pointer c (substTy m t)
  | .array t n => .array (substTy m t) n
  | .path n gs =>
    match alookup n m with
    | some t => t
    | Option.none => .path n (substTyList m gs)
  | .funcPtr as r => .funcPtr (substTyList m as) (substTy m r)

def substTyList (m : List (String × Ty)) : List Ty → List Ty
  | [] => []
  | t :: ts => substTy m t :: substTyList m ts

end

/-- Modelled from the spec: Specialization::specialize (spec section 4.5).
Resolve the body reference; recurse through specialization targets after
substituting the arguments; monomorphize concrete aggregates under the
specialization's name; treat enum, opaque and typedef targets as transparent;
report argument-count mismatches and resolution misses as errors.  Fuel
bounds the recursion through chained specializations. -/
def Specialization.specialize (lib : Library) :
    Nat → Specialization → Except String (Option PathValue)
  | 0, _ => .error "specialization recursion limit reached"
  | fuel + 1, s =>
    match s.aliased with
    | .path tname targs =>
      match lib.resolve_path tname with
      | some (.Specialization t) =>
        if targs.length ≠ t.generic_params.length then
          .error "incorrect number of generic arguments"
        else
          Specialization.specialize lib fuel
            { name := s.name
              annotations := s.annotations
              generic_params := s.generic_params
              aliased := substTy (t.generic_params.zip targs) t.aliased }
      | some (.Struct t) =>
        if targs.length ≠ t.generic_params.length then
          .error "incorrect number of generic arguments"
        else
          .ok (some (.Struct
            { name := s.name
              annotations := t.annotations
              fields := t.fields.map
                (fun f => (f.1, substTy (t.generic_params.zip targs) f.2))
              generic_params := [] }))
      | some (.Enum _) => .ok Option.none
      | some (.OpaqueStruct _) => .ok Option.none
      | some (.Typedef _) => .ok Option.none
      | Option.none => .error "could not resolve specialization target"
    | _ => .error "specialization body is not a named reference"

/-! The renaming pass and the emission driver (Library::generate). -/

/-- Modelled from the spec: aggregate field renaming per the field rename rule
(spec section 4.6 step 5); fields are snake_case identifiers. -/
def Struct.apply_renaming (s : Struct) (c : Config) : Struct :=
  let fs := s.fields.map
    (fun (f : String × Ty) =>
      (c.field_rename_rule.apply_to_snake_case f.1 .StructMember, f.2))
  { s with fields := fs }

/-- Modelled from the spec: enum variant renaming per the variant rename rule
(spec section 4.6 step 5); variants are PascalCase identifiers. -/
def Enum.apply_renaming (e : Enum) (c : Config) : Enum :=
  let vs := e.variants.map
    (fun (v : String × Option Int) =>
      (c.variant_rename_rule.apply_to_pascal_case v.1 .EnumVariant, v.2))
  { e with variants := vs }

/-- Modelled from the spec: function argument renaming per the argument rename
rule (spec section 4.6 step 5). -/
def Function.apply_renaming (f : Function) (c : Config) : Function :=
  let as := f.args.map
    (fun (a : String × Ty) =>
      (c.arg_rename_rule.apply_to_snake_case a.1 .FunctionArg, a.2))
  { f with args := as }

/-- library.rs PathValue::apply_renaming (lines 61-67): only the Enum and
Struct arms do anything; every other variant is returned unchanged. -/
def PathValue.apply_renaming (v : PathValue) (c : Config) : PathValue :=
  match v with
  | .Enum x => .Enum (x.apply_renaming c)
  | .Struct x => .Struct (x.apply_renaming c)
  | other => other

/-- The comparator of Library::generate (library.rs lines 401-413), with the
match arms in source order. -/
def pv_cmp (a b : PathValue) : Ordering :=
  match a, b with
  | .Enum e₁, .Enum e₂ => compare e₁.name e₂.name
  | .Enum _, _ => .lt
  | _, .Enum _ => .gt
  | .OpaqueStruct o₁, .OpaqueStruct o₂ => compare o₁.name o₂.name
  | .OpaqueStruct _, _ => .lt
  | _, .OpaqueStruct _ => .gt
  | _, _ => .eq

/-- Comparison of two path values by name only (used to state the post-sort
characterization). -/
def pv_name_cmp (a b : PathValue) : Ordering := compare a.name b.name

/-- Stable insertion: the new element goes after every element it compares
greater than, and before the first element it does not. -/
def insertBy {α : Type} (cmp : α → α → Ordering) (x : α) : List α → List α
  | [] => [x]
  | y :: ys => if cmp x y = .gt then y :: insertBy cmp x ys else x :: y :: ys

/-- Rust's Vec::sort_by is a stable comparator sort; any stable sort computes
the same list, modelled here as stable insertion sort. -/
def sortBy {α : Type} (cmp : α → α → Ordering) : List α → List α
  | [] => []
  | x :: xs => insertBy cmp x (sortBy cmp xs)

/-- The dependency gathering step of Library::generate: each function of the
(name-ordered) function table adds its dependencies to one graph. -/
def Library.dep_graph (lib : Library) (fuel : Nat) : DependencyGraph :=
  lib.functions.foldl (fun g kv => lib.run_dep_calls fuel kv.2.depCalls g)
    ⟨[], []⟩

/-- The copy loop of Library::generate (lines 375-397): parameterized
aggregates are dropped, specializations are replaced by their specialize
outcome (dropped when transparent or on error), everything else is pushed
as-is. -/
def compact_items (lib : Library) (fuel : Nat) (order : List PathValue) :
    List PathValue :=
  order.foldl (fun acc dep =>
    match dep with
    | .Struct s =>
      if !s.generic_params.isEmpty then acc else acc ++ [dep]
    | .Specialization s =>
      match Specialization.specialize lib fuel s with
      | .ok (some value) => acc ++ [value]
      | .ok Option.none => acc
      | .error _ => acc
    | _ => acc ++ [dep]) []

/-- library.rs BuiltBindings. -/
structure BuiltBindings where
  config : Config
  items : List PathValue
  functions : List Function
deriving DecidableEq

/-- library.rs Library::generate: gather dependencies of every function,
copy the order while specializing, post-sort with the comparator, copy the
functions in table order, then apply renaming to every item and function.
The source returns GenerateResult but every path returns Ok.  Fuel bounds the
walker and specializer recursion; every property proved below holds for every
fuel. -/
def Library.generate (lib : Library) (fuel : Nat) : BuiltBindings :=
  { config := lib.config
    items :=
      (sortBy pv_cmp
          (compact_items lib fuel (lib.dep_graph fuel).order)).map
        (fun it => it.apply_renaming lib.config)
    functions :=
      (lib.functions.map (fun kv => kv.2)).map
        (fun f => f.apply_renaming lib.config) }

/-- The Specialization arm of BuiltBindings::write (library.rs lines 494-506)
panics; this flag is true exactly when that arm would be reached while
writing the items. -/
def BuiltBindings.write_would_panic (b : BuiltBindings) : Bool :=
  b.items.any (fun it => it.isSpecialization)

/-! The CLI driver, main.rs.  The external collaborators (clap, the
configuration loader, the filesystem, the parser) are modelled as oracles;
the control flow of main is translated from the source. -/

/-- How the process run ends: a normal fall-through of main (exit status 0),
an early plain return after logging an error (still exit status 0, because a
plain return from main reports success), or a panic (non-zero exit status). -/
inductive MainResult where
  | ok
  | earlyReturn
  | panicked
deriving DecidableEq

/-- The process exit status of each outcome; a Rust panic exits with 101. -/
def MainResult.exit_code : MainResult → Nat
  | .ok => 0
  | .earlyReturn => 0
  | .panicked => 101

/-- The command line values main reads. -/
structure CliArgs where
  input : String
  config : Option String
  lang : Option String
  crate_arg : Option String
  out : Option String
deriving DecidableEq

/-- Modelled from the spec: the external collaborators of main.rs.  Fuel feeds
the generate model. -/
structure MainEnv where
  config_from_file : String → Except String Config
  config_from_root_or_default : String → Config
  is_dir : String → Bool
  parent_file_name : String → Option String
  load_crate : String → String → Config → Except String Library
  load_src : String → Config → Except String Library
  file_create_ok : String → Bool
  fuel : Nat

/-- main.rs main (lines 61-129): configuration loading (unwrap panics on a
load failure), language selection (unknown language logs an error and
returns), crate-name inference (failure logs an error and returns), parsing
(failure logs an error and returns), generation, and output (file creation
failure panics through unwrap). -/
def run_main (env : MainEnv) (args : CliArgs) : MainResult :=
  let cfg₀ : Except String Config :=
    match args.config with
    | some c => env.config_from_file c
    | Option.none => .ok (env.config_from_root_or_default args.input)
  match cfg₀ with
  | .error _ => .panicked
  | .ok config =>
    let lang_step : Option Config :=
      match args.lang with
      | some l =>
        if l = "c++" then some { config with language := .Cxx }
        else if l = "c" then some { config with language := .C }
        else Option.none
      | Option.none => some config
    match lang_step with
    | Option.none => .earlyReturn
    | some config =>
      let lib_step : Option (Except String Library) :=
        if env.is_dir args.input then
          match args.crate_arg with
          | some binding_crate => some (env.load_crate args.input binding_crate config)
          | Option.none =>
            match env.parent_file_name args.input with
            | some inferred => some (env.load_crate args.input inferred config)
            | Option.none => Option.none
        else some (env.load_src args.input config)
      match lib_step with
      | Option.none => .earlyReturn
      | some (.error _) => .earlyReturn
      | some (.ok library) =>
        let built := library.generate env.fuel
        match args.out with
        | some file =>
          if env.file_create_ok file then
            (if built.write_would_panic then .panicked else .ok)
          else .panicked
        | Option.none =>
          if built.write_would_panic then .panicked else .ok

/-! Derived definitions used to state the theorems, plus concrete example
data for the counterexamples and witnesses. -/

/-- A fixed configuration used by concrete examples. -/
def trivialConfig : Config :=
  ⟨Language.Cxx, false, RenameRule.None, RenameRule.None, RenameRule.None⟩

/-- Lowercasing of the leading character of a string (the operation the
specification describes when it says the CamelCase result is the PascalCase
result with the leading character lowercased). -/
def lower_first (s : String) : String :=
  match s.data with
  | [] => ""
  | c :: cs => String.mk (ascii_to_lower c :: cs)

mutual

/-- Canonical snake_case continuation: lowercase letters and digits, with
single underscores each followed by a further word. -/
def word_rest : List Char → Bool
  | [] => true
  | c :: cs =>
    if c = '_' then word_start cs
    else (is_lower_alpha c || is_ascii_digit c) && word_rest cs

/-- Canonical snake_case word start: a lowercase letter followed by a
canonical continuation. -/
def word_start : List Char → Bool
  | [] => false
  | c :: cs => is_lower_alpha c && word_rest cs

end

/-- A structure datum for the C1 example: the first declaration named A. -/
def c1_st1 : Struct := ⟨"A", [], [("x", Ty.primitive "i32")], []⟩

/-- A structure datum for the C1 example: the second declaration named A. -/
def c1_st2 : Struct := ⟨"A", [], [("y", Ty.primitive "u64")], []⟩

/-- The library obtained by processing two successfully-converting repr(C)
aggregates named A in order. -/
def c1_lib : Library :=
  Library.parse_crate_mod (Library.blank "k" trivialConfig) "k"
    [ItemNode.StructDecl "A" true (.ok []) (.ok c1_st1),
     ItemNode.StructDecl "A" true (.ok []) (.ok c1_st2)]

/-- A library that already holds the concrete struct A (C1 witness data). -/
def c1_wlib : Library :=
  { Library.blank "k" trivialConfig with structs := [("A", c1_st1)] }

/-- The dependency graph invariant: no item name occurs twice in the order,
and every ordered item has been visited. -/
def graphInv (g : DependencyGraph) : Prop :=
  (g.order.map PathValue.name).Nodup ∧
    ∀ n ∈ g.order.map PathValue.name, n ∈ g.items

/-- Every value of a table is stored under its own name. -/
def keysMatch {V : Type} (nameOf : V → String)
    (l : List (String × V)) : Bool :=
  l.all (fun kv => nameOf kv.2 == kv.1)

/-- Library well-formedness: each of the five item tables keys every value by
the value's name (intake inserts values under their declaration name). -/
def Library.wf (lib : Library) : Bool :=
  keysMatch Enum.name lib.enums &&
  keysMatch Struct.name lib.structs &&
  keysMatch OpaqueStruct.name lib.opaque_structs &&
  keysMatch Typedef.name lib.typedefs &&
  keysMatch Specialization.name lib.specializations

/-- The walker contract: a call preserves the graph invariant, only grows the
visited set, and only appends values whose names were unvisited before the
call and are visited after it. -/
def WalkOk (F : DependencyGraph → DependencyGraph) : Prop :=
  ∀ g, graphInv g →
    graphInv (F g) ∧
    (∀ n, n ∈ g.items → n ∈ (F g).items) ∧
    ∃ Δ, (F g).order = g.order ++ Δ ∧
      ∀ v ∈ Δ, v.name ∈ (F g).items ∧ v.name ∉ g.items

/-- A two-item library for the C5 witness: struct A holds a field of the
named type B, which is opaque. -/
def c5_lib : Library :=
  { Library.blank "k" trivialConfig with
      structs := [("A", ⟨"A", [], [("f", Ty.path "B" [])], []⟩)],
      opaque_structs := [("B", ⟨"B", []⟩)] }

/-- A library for the C10 witness: one function whose argument mentions the
opaque aggregate B. -/
def c10_lib : Library :=
  { Library.blank "k" trivialConfig with
      opaque_structs := [("B", ⟨"B", []⟩)],
      functions :=
        [("f", ⟨"f", [], Ty.primitive "void", [("x", Ty.path "B" [])],
          false⟩)] }

/-- A main environment whose parser always fails and whose other
collaborators are trivial (C8 data). -/
def c8_env : MainEnv :=
  { config_from_file := fun _ => .ok trivialConfig
    config_from_root_or_default := fun _ => trivialConfig
    is_dir := fun _ => false
    parent_file_name := fun _ => Option.none
    load_crate := fun _ _ _ => .error "parse failed"
    load_src := fun _ _ => .error "parse failed"
    file_create_ok := fun _ => true
    fuel := 1 }

/-- The C8 environment with a directory input whose crate name cannot be
inferred. -/
def c8_env_dir : MainEnv :=
  { c8_env with is_dir := fun _ => true }

/-- Command line with an unrecognized language value (C8 data). -/
def c8_args_lang : CliArgs :=
  ⟨"lib.rs", Option.none, some "fortran", Option.none, Option.none⟩

/-- Command line with no options at all (C8 data). -/
def c8_args_plain : CliArgs :=
  ⟨"lib.rs", Option.none, Option.none, Option.none, Option.none⟩

/-- A concrete typedef item (C10 witness data). -/
def c10_td : Typedef :=
  { name := "T", annotations := [], aliased := Ty.primitive "i32" }

/-! Theorems.  Each claim of the specification review gets exactly one
theorem (plus a closed counterexample or witness where required). -/

theorem alookup_btInsert_self {V : Type} (k : String) (v : V)
    (l : List (String × V)) : alookup k (btInsert k v l) = some v := by
  induction l with
  | nil => simp [btInsert, alookup]
  | cons hd tl ih =>
    obtain ⟨k₁, v₁⟩ := hd
    rcases hc : compare k k₁ with _ | _ | _
    · simp [btInsert, hc, alookup]
    · simp [btInsert, hc, alookup]
    · have hne : k ≠ k₁ := by
        intro he
        rw [he, compare_eq_iff_eq.mpr rfl] at hc
        cases hc
      simp [btInsert, hc, alookup, hne, ih]

theorem alookup_btInsert_ne {V : Type} (k q : String) (v : V)
    (l : List (String × V)) (h : q ≠ k) :
    alookup q (btInsert k v l) = alookup q l := by
  induction l with
  | nil => simp [btInsert, alookup, h]
  | cons hd tl ih =>
    obtain ⟨k₁, v₁⟩ := hd
    rcases hc : compare k k₁ with _ | _ | _
    · simp [btInsert, hc, alookup, h]
    · have he : k = k₁ := compare_eq_iff_eq.mp hc
      subst he
      simp [btInsert, hc, alookup, h]
    · by_cases h₃ : q = k₁
      · simp [btInsert, hc, alookup, h₃]
      · simp [btInsert, hc, alookup, h₃, ih]

/-! Claim C1.  The claim says that on a name collision the first inserted
declaration stays in the table except when two aggregates collide and the
second fails conversion.  The source inserts with BTreeMap::insert, which
replaces the stored value on an equal key, so within one table the later
declaration always wins; and a later failing aggregate lands in the separate
opaque table without displacing the earlier concrete entry, which also keeps
winning path resolution. -/

/-- C1 counterexample: two successfully converting repr(C) aggregates named A
arrive in order; the claim says the first inserted declaration remains and
the later one is discarded, but the struct table holds the second one. -/
theorem c1_counterexample :
    alookup "A" c1_lib.structs = some c1_st2 ∧
    alookup "A" c1_lib.structs ≠ some c1_st1 ∧ c1_st2 ≠ c1_st1 := by
  have hne : c1_st2 ≠ c1_st1 := by simp [c1_st1, c1_st2]
  have hl : alookup "A" c1_lib.structs = some c1_st2 := by
    simp only [c1_lib, Library.parse_crate_mod, List.foldl_cons, List.foldl_nil,
      Library.parse_item]
    exact alookup_btInsert_self "A" c1_st2 _
  exact ⟨hl, by rw [hl]; intro hcontra; exact hne (Option.some.inj hcontra), hne⟩

/-- C1 (amended): within one table the later colliding declaration replaces
the earlier one (BTreeMap::insert overwrites); an aggregate that fails
conversion after a same-named aggregate succeeded is inserted into the
separate opaque table, leaves the struct table unchanged, and path resolution
still returns the earlier concrete struct. -/
theorem c1_collision_behaviour :
    (∀ (lib : Library) (crate : String) (ds : List ItemNode) (name : String)
       (doc : Except String AnnotationSet) (st : Struct),
       alookup name
         (lib.parse_crate_mod crate
           (ds ++ [ItemNode.StructDecl name true doc (.ok st)])).structs =
         some st) ∧
    (∀ (lib : Library) (crate : String) (name : String)
       (doc : Except String AnnotationSet) (msg : String),
       ((lib.parse_crate_mod crate
           [ItemNode.StructDecl name true doc (.error msg)]).structs =
          lib.structs) ∧
       (alookup name
          (lib.parse_crate_mod crate
            [ItemNode.StructDecl name true doc (.error msg)]).opaque_structs =
          some ⟨name, annotOf doc⟩) ∧
       (∀ st : Struct, alookup name lib.enums = Option.none →
          alookup name lib.structs = some st →
          (lib.parse_crate_mod crate
            [ItemNode.StructDecl name true doc (.error msg)]).resolve_path
              name = some (.Struct st))) := by
  constructor
  · intro lib crate ds name doc st
    rw [Library.parse_crate_mod, List.foldl_append]
    simp only [List.foldl_cons, List.foldl_nil]
    simp [Library.parse_item, alookup_btInsert_self]
  · intro lib crate name doc msg
    refine ⟨rfl, ?_, ?_⟩
    · simp [Library.parse_crate_mod, Library.parse_item, alookup_btInsert_self]
    · intro st he hs
      simp [Library.parse_crate_mod, Library.parse_item, Library.resolve_path,
        he, hs]

/-- C1 witness: the amended claim evaluated at concrete inputs. -/
theorem c1_witness :
    alookup "A"
      ((Library.blank "k" trivialConfig).parse_crate_mod "k"
        ([] ++ [ItemNode.StructDecl "A" true (.ok []) (.ok c1_st1)])).structs =
      some c1_st1 ∧
    (c1_wlib.parse_crate_mod "k"
      [ItemNode.StructDecl "A" true (.ok []) (.error "bad field")]).resolve_path
        "A" = some (.Struct c1_st1) :=
  ⟨c1_collision_behaviour.1 (Library.blank "k" trivialConfig) "k" [] "A"
     (.ok []) c1_st1,
   (c1_collision_behaviour.2 c1_wlib "k" "A" (.ok []) "bad field").2.2 c1_st1
     (by decide) (by decide)⟩

/-! Claim C2.  The claim says an enum with generics or lifetimes is inserted
as an opaque aggregate; the source skips such an enum entirely (the continue
at library.rs 247-253) and only a variant-conversion failure falls back to
opaque. -/

/-- C2 counterexample: an enum declaration with a type parameter leaves the
library untouched; in particular no opaque aggregate named E is inserted. -/
theorem c2_counterexample :
    ((Library.blank "k" trivialConfig).parse_crate_mod "k"
        [ItemNode.EnumDecl "E" false true false (.ok [])
          (.ok ⟨"E", [], Repr.c, []⟩)]) =
      Library.blank "k" trivialConfig ∧
    alookup "E"
      ((Library.blank "k" trivialConfig).parse_crate_mod "k"
        [ItemNode.EnumDecl "E" false true false (.ok [])
          (.ok ⟨"E", [], Repr.c, []⟩)]).opaque_structs = Option.none := by
  refine ⟨by decide, by decide⟩

/-- C2 (amended): an enum declaration with lifetimes, type parameters or a
where-clause is skipped entirely at intake (the library is unchanged); an
enum whose variant conversion fails is the case that falls back to an opaque
aggregate under the same name. -/
theorem c2_enum_intake :
    (∀ (lib : Library) (crate name : String)
       (hl ht hw : Bool) (doc : Except String AnnotationSet)
       (conv : Except String Enum), (hl || ht || hw) = true →
       lib.parse_crate_mod crate [ItemNode.EnumDecl name hl ht hw doc conv] =
         lib) ∧
    (∀ (lib : Library) (crate name : String)
       (doc : Except String AnnotationSet) (msg : String),
       lib.parse_crate_mod crate
           [ItemNode.EnumDecl name false false false doc (.error msg)] =
         { lib with opaque_structs :=
             btInsert name ⟨name, annotOf doc⟩ lib.opaque_structs }) := by
  constructor
  · intro lib crate name hl ht hw doc conv h
    have hstep :
        lib.parse_item crate (ItemNode.EnumDecl name hl ht hw doc conv) =
          lib := by
      simp only [Library.parse_item]
      rw [if_pos h]
    simp only [Library.parse_crate_mod, List.foldl_cons, List.foldl_nil]
    exact hstep
  · intro lib crate name doc msg
    simp only [Library.parse_crate_mod, List.foldl_cons, List.foldl_nil,
      Library.parse_item]
    simp

/-- C2 witness: the amended claim evaluated at concrete inputs. -/
theorem c2_witness :
    (Library.blank "k" trivialConfig).parse_crate_mod "k"
        [ItemNode.EnumDecl "E" false true false (.ok [])
          (.ok ⟨"E", [], Repr.c, []⟩)] =
      Library.blank "k" trivialConfig ∧
    (Library.blank "k" trivialConfig).parse_crate_mod "k"
        [ItemNode.EnumDecl "F" false false false (.ok []) (.error "bad")] =
      { Library.blank "k" trivialConfig with
          opaque_structs := btInsert "F" ⟨"F", annotOf (.ok [])⟩ [] } :=
  ⟨c2_enum_intake.1 (Library.blank "k" trivialConfig) "k" "E" false true false
     (.ok []) (.ok ⟨"E", [], Repr.c, []⟩) (by decide),
   c2_enum_intake.2 (Library.blank "k" trivialConfig) "k" "F" (.ok []) "bad"⟩

/-! Character-level facts about the ASCII case helpers. -/

theorem char_toNat_ofNat_le (n : Nat) (h : n ≤ 122) :
    (Char.ofNat n).toNat = n := by
  have hv : n.isValidChar := Or.inl (by omega)
  rw [Char.ofNat, dif_pos hv]
  rfl

theorem word_char_facts (c : Char)
    (h : is_lower_alpha c = true ∨ is_ascii_digit c = true) :
    is_uppercase_ascii c = false ∧ ascii_to_lower c = c ∧ c ≠ '_' := by
  have hne : c ≠ '_' := by
    intro he
    subst he
    rcases h with h | h
    · exact absurd h (by decide)
    · exact absurd h (by decide)
  rcases h with h | h <;>
    simp only [is_lower_alpha, is_ascii_digit, Bool.and_eq_true,
      decide_eq_true_eq] at h
  · refine ⟨?_, ?_, hne⟩
    · simp only [is_uppercase_ascii, Bool.and_eq_false_iff]
      right
      simp only [decide_eq_false_iff_not]
      omega
    · rw [ascii_to_lower, if_neg]
      simp only [Bool.and_eq_true, decide_eq_true_eq]
      intro hcontra
      omega
  · refine ⟨?_, ?_, hne⟩
    · simp only [is_uppercase_ascii, Bool.and_eq_false_iff]
      left
      simp only [decide_eq_false_iff_not]
      omega
    · rw [ascii_to_lower, if_neg]
      simp only [Bool.and_eq_true, decide_eq_true_eq]
      intro hcontra
      omega

theorem upper_of_lower (c : Char) (h : is_lower_alpha c = true) :
    is_uppercase_ascii (ascii_to_upper c) = true ∧
      ascii_to_lower (ascii_to_upper c) = c := by
  simp only [is_lower_alpha, Bool.and_eq_true, decide_eq_true_eq] at h
  obtain ⟨h₁, h₂⟩ := h
  have hcond : (97 ≤ c.toNat && c.toNat ≤ 122) = true := by
    simp only [Bool.and_eq_true, decide_eq_true_eq]
    exact ⟨h₁, h₂⟩
  have hup : ascii_to_upper c = Char.ofNat (c.toNat - 32) := by
    rw [ascii_to_upper, if_pos hcond]
  have ht : (Char.ofNat (c.toNat - 32)).toNat = c.toNat - 32 :=
    char_toNat_ofNat_le _ (by omega)
  constructor
  · rw [hup]
    simp only [is_uppercase_ascii, ht, Bool.and_eq_true, decide_eq_true_eq]
    omega
  · rw [hup, ascii_to_lower, if_pos, ht]
    · have hsum : c.toNat - 32 + 32 = c.toNat := by omega
      rw [hsum, Char.ofNat_toNat]
    · simp only [ht, Bool.and_eq_true, decide_eq_true_eq]
      omega

theorem ascii_round (c : Char)
    (h : is_lower_alpha c = true ∨ is_ascii_digit c = true) :
    ascii_to_lower (ascii_to_upper c) = c := by
  rcases h with h | h
  · exact (upper_of_lower c h).2
  · have hd := h
    simp only [is_ascii_digit, Bool.and_eq_true, decide_eq_true_eq] at hd
    have hup : ascii_to_upper c = c := by
      rw [ascii_to_upper, if_neg]
      simp only [Bool.and_eq_true, decide_eq_true_eq]
      intro hcontra
      omega
    rw [hup]
    exact (word_char_facts c (Or.inr h)).2.1

/-! Claim C6.  The claim says the CamelCase result (from snake_case) is the
PascalCase result with the leading character lowercased, for every non-empty
snake_case identifier.  This fails for identifiers that begin with an
underscore: both rules then uppercase the first word, so the CamelCase result
starts with an uppercase letter. -/

/-- C6 counterexample: on the snake_case identifier _foo the CamelCase rule
yields Foo, which is not the PascalCase result foo with its leading character
lowercased (that is foo, with data Foo versus foo). -/
theorem c6_counterexample :
    RenameRule.CamelCase.apply_to_snake_case "_foo" IdentifierType.StructMember ≠
      lower_first
        (RenameRule.PascalCase.apply_to_snake_case "_foo"
          IdentifierType.StructMember) := by
  decide

/-- C6 (amended): for every non-empty identifier whose first character is a
lowercase ASCII letter or digit (in particular not an underscore), the
CamelCase rule applied from snake_case produces exactly the PascalCase result
with its leading character lowercased. -/
theorem c6_camel_vs_pascal (s : String) (context : IdentifierType)
    (c : Char) (cs : List Char) (hd : s.data = c :: cs)
    (hc : is_lower_alpha c = true ∨ is_ascii_digit c = true) :
    RenameRule.CamelCase.apply_to_snake_case s context =
      lower_first (RenameRule.PascalCase.apply_to_snake_case s context) := by
  have hlen : ¬ s.length = 0 := by
    rw [show s.length = s.data.length from rfl, hd]
    simp
  have hne : c ≠ '_' := (word_char_facts c hc).2.2
  simp only [RenameRule.apply_to_snake_case, if_neg hlen]
  rw [hd]
  have h₁ : pascal_loop false (c :: cs) = c :: pascal_loop false cs := by
    simp [pascal_loop, hne]
  have h₂ : pascal_loop true (c :: cs) =
      ascii_to_upper c :: pascal_loop false cs := by
    simp [pascal_loop, hne]
  rw [h₁, h₂]
  simp only [lower_first]
  rw [ascii_round c hc]

/-- C6 witness: the amended claim evaluated at the identifier foo_bar. -/
theorem c6_witness :
    RenameRule.CamelCase.apply_to_snake_case "foo_bar"
        IdentifierType.StructMember =
      lower_first
        (RenameRule.PascalCase.apply_to_snake_case "foo_bar"
          IdentifierType.StructMember) :=
  c6_camel_vs_pascal "foo_bar" IdentifierType.StructMember 'f'
    ['o', 'o', '_', 'b', 'a', 'r'] rfl (Or.inl (by decide))

/-! Claim C7.  The claim says SnakeCase (from PascalCase) undoes PascalCase
(from snake_case) on every snake_case identifier.  The PascalCase direction
erases the distinction between a word boundary and a following character
that cannot mark one: an underscore before a digit, a doubled underscore, or
a leading or trailing underscore are all lost. -/

theorem snake_pascal_round_aux : ∀ cs : List Char,
    (word_rest cs = true →
      snake_loop false (pascal_loop false cs) = cs) ∧
    (word_start cs = true →
      snake_loop false (pascal_loop true cs) = '_' :: cs) := by
  intro cs
  induction cs with
  | nil =>
    constructor
    · intro _
      rfl
    · intro h
      exact absurd h (by decide)
  | cons c cs ih =>
    constructor
    · intro h
      by_cases hc : c = '_'
      · subst hc
        have h' : word_start cs = true := by
          simpa [word_rest] using h
        have hp : pascal_loop false ('_' :: cs) = pascal_loop true cs := by
          simp [pascal_loop]
        rw [hp]
        exact ih.2 h'
      · have h' : (is_lower_alpha c || is_ascii_digit c) = true ∧
            word_rest cs = true := by
          rw [word_rest, if_neg hc] at h
          simpa using h
        have hcc : is_lower_alpha c = true ∨ is_ascii_digit c = true := by
          simpa using h'.1
        obtain ⟨hu, hl, _⟩ := word_char_facts c hcc
        have hp : pascal_loop false (c :: cs) = c :: pascal_loop false cs := by
          simp [pascal_loop, hc]
        rw [hp]
        rw [show snake_loop false (c :: pascal_loop false cs) =
            (if is_uppercase_ascii c && !false then ['_'] else []) ++
              (ascii_to_lower c :: snake_loop false (pascal_loop false cs))
          from rfl]
        rw [hu, hl]
        simp only [Bool.false_and, Bool.not_false, Bool.and_true,
          Bool.false_eq_true, if_false, List.nil_append]
        rw [ih.1 h'.2]
    · intro h
      have h' : is_lower_alpha c = true ∧ word_rest cs = true := by
        rw [word_start] at h
        simpa using h
      obtain ⟨hup, hround⟩ := upper_of_lower c h'.1
      have hne : c ≠ '_' := (word_char_facts c (Or.inl h'.1)).2.2
      have hp : pascal_loop true (c :: cs) =
          ascii_to_upper c :: pascal_loop false cs := by
        simp [pascal_loop, hne]
      rw [hp]
      rw [show snake_loop false (ascii_to_upper c :: pascal_loop false cs) =
          (if is_uppercase_ascii (ascii_to_upper c) && !false then ['_']
           else []) ++
            (ascii_to_lower (ascii_to_upper c) ::
              snake_loop false (pascal_loop false cs))
        from rfl]
      rw [hup, hround]
      simp only [Bool.not_false, Bool.and_true, if_true, List.cons_append,
        List.nil_append]
      rw [ih.1 h'.2]

/-- C7 counterexample: for the snake_case identifier a_1, PascalCase yields
A1 and SnakeCase applied to A1 yields a1, not the original a_1 (the
underscore before a digit is lost). -/
theorem c7_counterexample :
    RenameRule.SnakeCase.apply_to_pascal_case
        (RenameRule.PascalCase.apply_to_snake_case "a_1"
          IdentifierType.StructMember) IdentifierType.StructMember = "a1" ∧
      ("a1" : String) ≠ "a_1" := by
  constructor
  · decide
  · decide

/-- C7 (amended): SnakeCase (from PascalCase) applied to the PascalCase (from
snake_case) image of s yields s again for every canonical snake_case
identifier s: one or more words separated by single underscores, each word
starting with a lowercase ASCII letter and continuing with lowercase letters
or digits. -/
theorem c7_snake_pascal_roundtrip (s : String)
    (ctx₁ ctx₂ : IdentifierType) (h : word_start s.data = true) :
    RenameRule.SnakeCase.apply_to_pascal_case
      (RenameRule.PascalCase.apply_to_snake_case s ctx₁) ctx₂ = s := by
  obtain ⟨c, cs, hd⟩ : ∃ c cs, s.data = c :: cs := by
    cases hcs : s.data with
    | nil =>
      rw [hcs] at h
      exact absurd h (by decide)
    | cons a b => exact ⟨a, b, rfl⟩
  rw [hd] at h
  have h' : is_lower_alpha c = true ∧ word_rest cs = true := by
    rw [word_start] at h
    simpa using h
  obtain ⟨hup, hround⟩ := upper_of_lower c h'.1
  have hne : c ≠ '_' := (word_char_facts c (Or.inl h'.1)).2.2
  have hlen : ¬ s.length = 0 := by
    rw [show s.length = s.data.length from rfl, hd]
    simp
  simp only [RenameRule.apply_to_snake_case, if_neg hlen]
  rw [hd]
  have hp : pascal_loop true (c :: cs) =
      ascii_to_upper c :: pascal_loop false cs := by
    simp [pascal_loop, hne]
  rw [hp]
  have hlen₂ :
      ¬ (String.mk (ascii_to_upper c :: pascal_loop false cs)).length = 0 := by
    simp [String.length]
  simp only [RenameRule.apply_to_pascal_case, if_neg hlen₂]
  rw [show snake_loop true (ascii_to_upper c :: pascal_loop false cs) =
      (if is_uppercase_ascii (ascii_to_upper c) && !true then ['_']
       else []) ++
        (ascii_to_lower (ascii_to_upper c) ::
          snake_loop false (pascal_loop false cs))
    from rfl]
  rw [hround]
  simp only [Bool.not_true, Bool.and_false, Bool.false_eq_true, if_false,
    List.nil_append]
  rw [(snake_pascal_round_aux cs).1 h'.2]
  rw [← hd]

/-- C7 witness: the amended claim evaluated at the identifier foo_bar2. -/
theorem c7_witness :
    RenameRule.SnakeCase.apply_to_pascal_case
      (RenameRule.PascalCase.apply_to_snake_case "foo_bar2"
        IdentifierType.StructMember) IdentifierType.StructMember =
      "foo_bar2" :=
  c7_snake_pascal_roundtrip "foo_bar2" IdentifierType.StructMember
    IdentifierType.StructMember (by decide)

/-! Claim C9.  RenameRule::from_str accepts exactly the alias table and
reports any other input inside its error message. -/

theorem from_str_of_not_mem (s : String) (h : s ∉ rename_rule_aliases) :
    RenameRule.from_str s =
      Except.error ("unrecognized RenameRule: '" ++ s ++ "'") := by
  have h1 : ¬ s = "none" := fun he => h (by rw [he]; decide)
  have h2 : ¬ s = "None" := fun he => h (by rw [he]; decide)
  have h3 : ¬ s = "mGeckoCase" := fun he => h (by rw [he]; decide)
  have h4 : ¬ s = "GeckoCase" := fun he => h (by rw [he]; decide)
  have h5 : ¬ s = "gecko_case" := fun he => h (by rw [he]; decide)
  have h6 : ¬ s = "lowercase" := fun he => h (by rw [he]; decide)
  have h7 : ¬ s = "LowerCase" := fun he => h (by rw [he]; decide)
  have h8 : ¬ s = "lower_case" := fun he => h (by rw [he]; decide)
  have h9 : ¬ s = "UPPERCASE" := fun he => h (by rw [he]; decide)
  have h10 : ¬ s = "UpperCase" := fun he => h (by rw [he]; decide)
  have h11 : ¬ s = "upper_case" := fun he => h (by rw [he]; decide)
  have h12 : ¬ s = "PascalCase" := fun he => h (by rw [he]; decide)
  have h13 : ¬ s = "pascal_case" := fun he => h (by rw [he]; decide)
  have h14 : ¬ s = "camelCase" := fun he => h (by rw [he]; decide)
  have h15 : ¬ s = "CamelCase" := fun he => h (by rw [he]; decide)
  have h16 : ¬ s = "camel_case" := fun he => h (by rw [he]; decide)
  have h17 : ¬ s = "snake_case" := fun he => h (by rw [he]; decide)
  have h18 : ¬ s = "SnakeCase" := fun he => h (by rw [he]; decide)
  have h19 : ¬ s = "SCREAMING_SNAKE_CASE" := fun he => h (by rw [he]; decide)
  have h20 : ¬ s = "ScreamingSnakeCase" := fun he => h (by rw [he]; decide)
  have h21 : ¬ s = "screaming_snake_case" := fun he => h (by rw [he]; decide)
  unfold RenameRule.from_str
  rw [if_neg h1, if_neg h2, if_neg h3, if_neg h4, if_neg h5, if_neg h6, if_neg h7, if_neg h8, if_neg h9, if_neg h10, if_neg h11, if_neg h12, if_neg h13, if_neg h14, if_neg h15, if_neg h16, if_neg h17, if_neg h18, if_neg h19, if_neg h20, if_neg h21]

/-- C9: parsing a rename rule succeeds exactly on the strings of the curated
alias table, and on every other string it fails with the diagnostic
naming the bad input, whose message contains the offending string. -/
theorem c9_from_str (s : String) :
    ((∃ r, RenameRule.from_str s = Except.ok r) ↔ s ∈ rename_rule_aliases) ∧
    (s ∉ rename_rule_aliases →
      RenameRule.from_str s =
          Except.error ("unrecognized RenameRule: '" ++ s ++ "'") ∧
        ∃ pre suf,
          ("unrecognized RenameRule: '" ++ s ++ "'" : String) =
            pre ++ s ++ suf) := by
  refine ⟨⟨?_, ?_⟩, fun hmem =>
    ⟨from_str_of_not_mem s hmem, "unrecognized RenameRule: '", "'", rfl⟩⟩
  · rintro ⟨r, hr⟩
    by_contra hmem
    rw [from_str_of_not_mem s hmem] at hr
    exact Except.noConfusion hr
  · intro h
    simp only [rename_rule_aliases, List.mem_cons, List.not_mem_nil,
      or_false] at h
    rcases h with rfl | rfl | rfl | rfl | rfl | rfl | rfl | rfl | rfl |
      rfl | rfl | rfl | rfl | rfl | rfl | rfl | rfl | rfl | rfl | rfl | rfl
    · exact ⟨RenameRule.None, by decide⟩
    · exact ⟨RenameRule.None, by decide⟩
    · exact ⟨RenameRule.GeckoCase, by decide⟩
    · exact ⟨RenameRule.GeckoCase, by decide⟩
    · exact ⟨RenameRule.GeckoCase, by decide⟩
    · exact ⟨RenameRule.LowerCase, by decide⟩
    · exact ⟨RenameRule.LowerCase, by decide⟩
    · exact ⟨RenameRule.LowerCase, by decide⟩
    · exact ⟨RenameRule.UpperCase, by decide⟩
    · exact ⟨RenameRule.UpperCase, by decide⟩
    · exact ⟨RenameRule.UpperCase, by decide⟩
    · exact ⟨RenameRule.PascalCase, by decide⟩
    · exact ⟨RenameRule.PascalCase, by decide⟩
    · exact ⟨RenameRule.CamelCase, by decide⟩
    · exact ⟨RenameRule.CamelCase, by decide⟩
    · exact ⟨RenameRule.CamelCase, by decide⟩
    · exact ⟨RenameRule.SnakeCase, by decide⟩
    · exact ⟨RenameRule.SnakeCase, by decide⟩
    · exact ⟨RenameRule.ScreamingSnakeCase, by decide⟩
    · exact ⟨RenameRule.ScreamingSnakeCase, by decide⟩
    · exact ⟨RenameRule.ScreamingSnakeCase, by decide⟩

/-- C9 witness: the forward direction at gecko_case and the failure branch
at the unknown string m_gecko. -/
theorem c9_witness :
    (∃ r, RenameRule.from_str "gecko_case" = Except.ok r) ∧
      RenameRule.from_str "m_gecko" =
        Except.error ("unrecognized RenameRule: '" ++ "m_gecko" ++ "'") :=
  ⟨(c9_from_str "gecko_case").1.mpr (by decide),
   ((c9_from_str "m_gecko").2 (by decide)).1⟩

/-! Claim C3.  The generate post-sort is a stable sort with a comparator that
groups enums first (by name), then opaque aggregates (by name), and leaves
everything else equal; the sorted list is therefore the concatenation of the
name-sorted enums, the name-sorted opaque aggregates, and the remaining items
in their walk order. -/

theorem mem_insertBy {α : Type} (cmp : α → α → Ordering) (x y : α)
    (l : List α) : y ∈ insertBy cmp x l ↔ y = x ∨ y ∈ l := by
  induction l with
  | nil => simp [insertBy]
  | cons a l ih =>
    by_cases h : cmp x a = .gt
    · simp only [insertBy, if_pos h, List.mem_cons, ih]
      tauto
    · simp only [insertBy, if_neg h, List.mem_cons]

theorem mem_sortBy {α : Type} (cmp : α → α → Ordering) (y : α) (l : List α) :
    y ∈ sortBy cmp l ↔ y ∈ l := by
  induction l with
  | nil => simp [sortBy]
  | cons a l ih =>
    simp only [sortBy, mem_insertBy, ih, List.mem_cons]

theorem insertBy_skip {α : Type} (cmp : α → α → Ordering) (x : α)
    (A B : List α) (hA : ∀ y ∈ A, cmp x y = .gt) :
    insertBy cmp x (A ++ B) = A ++ insertBy cmp x B := by
  induction A with
  | nil => rfl
  | cons a A ih =>
    have ha : cmp x a = .gt := hA a (List.mem_cons_self a A)
    simp only [List.cons_append, insertBy, if_pos ha, List.append_eq]
    rw [ih (fun y hy => hA y (List.mem_cons_of_mem a hy))]

theorem insertBy_front {α : Type} (cmp : α → α → Ordering) (x : α)
    (B : List α) (hB : ∀ y ∈ B, ¬ cmp x y = .gt) :
    insertBy cmp x B = x :: B := by
  cases B with
  | nil => rfl
  | cons b B =>
    have hb : ¬ cmp x b = .gt := hB b (List.mem_cons_self b B)
    simp only [insertBy, if_neg hb]

theorem insertBy_zone (x : PathValue) (E rest : List PathValue)
    (hEx : ∀ y ∈ E, pv_cmp x y = pv_name_cmp x y)
    (hrest : ∀ y ∈ rest, ¬ pv_cmp x y = .gt) :
    insertBy pv_cmp x (E ++ rest) = insertBy pv_name_cmp x E ++ rest := by
  induction E with
  | nil => simpa [insertBy] using insertBy_front pv_cmp x rest hrest
  | cons e E ih =>
    have hxe : pv_cmp x e = pv_name_cmp x e := hEx e (List.mem_cons_self e E)
    by_cases hgt : pv_name_cmp x e = .gt
    · simp only [List.cons_append, insertBy, hxe, if_pos hgt, List.append_eq]
      rw [ih (fun y hy => hEx y (List.mem_cons_of_mem e hy))]
    · simp only [List.cons_append, insertBy, hxe, if_neg hgt, List.append_eq]

theorem pv_cmp_eq_name_of_enum (x y : PathValue) (hx : x.isEnum = true)
    (hy : y.isEnum = true) : pv_cmp x y = pv_name_cmp x y := by
  cases x <;> cases y <;> simp_all [PathValue.isEnum, pv_cmp, pv_name_cmp,
    PathValue.name]

theorem pv_cmp_lt_of_enum_not (x y : PathValue) (hx : x.isEnum = true)
    (hy : y.isEnum = false) : pv_cmp x y = .lt := by
  cases x <;> cases y <;> simp_all [PathValue.isEnum, pv_cmp]

theorem pv_cmp_gt_of_not_enum (x y : PathValue) (hx : x.isEnum = false)
    (hy : y.isEnum = true) : pv_cmp x y = .gt := by
  cases x <;> cases y <;> simp_all [PathValue.isEnum, pv_cmp]

theorem pv_cmp_eq_name_of_opaque (x y : PathValue) (hx : x.isOpaque = true)
    (hy : y.isOpaque = true) : pv_cmp x y = pv_name_cmp x y := by
  cases x <;> cases y <;> simp_all [PathValue.isOpaque, pv_cmp, pv_name_cmp,
    PathValue.name]

theorem pv_cmp_lt_of_opaque_other (x y : PathValue) (hx : x.isOpaque = true)
    (hy₁ : y.isEnum = false) (hy₂ : y.isOpaque = false) :
    pv_cmp x y = .lt := by
  cases x <;> cases y <;> simp_all [PathValue.isOpaque, PathValue.isEnum,
    pv_cmp]

theorem pv_cmp_gt_of_other_opaque (x y : PathValue) (hx₁ : x.isEnum = false)
    (hx₂ : x.isOpaque = false) (hy : y.isOpaque = true) :
    pv_cmp x y = .gt := by
  cases x <;> cases y <;> simp_all [PathValue.isOpaque, PathValue.isEnum,
    pv_cmp]

theorem pv_cmp_eq_of_other_other (x y : PathValue) (hx₁ : x.isEnum = false)
    (hx₂ : x.isOpaque = false) (hy₁ : y.isEnum = false)
    (hy₂ : y.isOpaque = false) : pv_cmp x y = .eq := by
  cases x <;> cases y <;> simp_all [PathValue.isOpaque, PathValue.isEnum,
    pv_cmp]

/-- The stable sort with the generate comparator is the concatenation of the
stable name-sort of the enums, the stable name-sort of the opaque aggregates,
and the remaining items in their original relative order. -/
theorem sortBy_pv_cmp_eq (l : List PathValue) :
    sortBy pv_cmp l =
      sortBy pv_name_cmp (l.filter PathValue.isEnum) ++
        (sortBy pv_name_cmp (l.filter PathValue.isOpaque) ++
          l.filter (fun v => !v.isEnum && !v.isOpaque)) := by
  induction l with
  | nil => rfl
  | cons x l ih =>
    have hmemE : ∀ y ∈ sortBy pv_name_cmp (l.filter PathValue.isEnum),
        y.isEnum = true := by
      intro y hy
      exact List.of_mem_filter ((mem_sortBy _ y _).mp hy)
    have hmemO : ∀ y ∈ sortBy pv_name_cmp (l.filter PathValue.isOpaque),
        y.isOpaque = true := by
      intro y hy
      exact List.of_mem_filter ((mem_sortBy _ y _).mp hy)
    have hmemR : ∀ y ∈ l.filter (fun v => !v.isEnum && !v.isOpaque),
        y.isEnum = false ∧ y.isOpaque = false := by
      intro y hy
      have := List.of_mem_filter hy
      simp only [Bool.and_eq_true, Bool.not_eq_true'] at this
      exact this
    have henum_not : ∀ y : PathValue, y.isOpaque = true → y.isEnum = false :=
      by intro y hy; cases y <;> simp_all [PathValue.isOpaque, PathValue.isEnum]
    by_cases hE : x.isEnum = true
    · have hfE : (x :: l).filter PathValue.isEnum =
          x :: l.filter PathValue.isEnum := by simp [List.filter, hE]
      have hfO : (x :: l).filter PathValue.isOpaque =
          l.filter PathValue.isOpaque := by
        have : x.isOpaque = false := by
          cases x <;> simp_all [PathValue.isOpaque, PathValue.isEnum]
        simp [List.filter, this]
      have hfR : (x :: l).filter (fun v => !v.isEnum && !v.isOpaque) =
          l.filter (fun v => !v.isEnum && !v.isOpaque) := by
        simp [List.filter, hE]
      rw [hfE, hfO, hfR]
      simp only [sortBy, ih]
      rw [insertBy_zone x _ _
        (fun y hy => pv_cmp_eq_name_of_enum x y hE (hmemE y hy))
        ?hrest]
      case hrest =>
        intro y hy
        rcases List.mem_append.mp hy with hy | hy
        · have hyo := hmemO y hy
          rw [pv_cmp_lt_of_enum_not x y hE (henum_not y hyo)]
          simp
        · have hyr := hmemR y hy
          rw [pv_cmp_lt_of_enum_not x y hE hyr.1]
          simp
    · by_cases hO : x.isOpaque = true
      · have hE' : x.isEnum = false := by simpa using hE
        have hfE : (x :: l).filter PathValue.isEnum =
            l.filter PathValue.isEnum := by
          simp [List.filter, hE']
        have hfO : (x :: l).filter PathValue.isOpaque =
            x :: l.filter PathValue.isOpaque := by simp [List.filter, hO]
        have hfR : (x :: l).filter (fun v => !v.isEnum && !v.isOpaque) =
            l.filter (fun v => !v.isEnum && !v.isOpaque) := by
          simp [List.filter, hO, hE']
        rw [hfE, hfO, hfR]
        simp only [sortBy, ih]
        rw [insertBy_skip pv_cmp x _ _
          (fun y hy => pv_cmp_gt_of_not_enum x y hE' (hmemE y hy))]
        rw [insertBy_zone x _ _
          (fun y hy => pv_cmp_eq_name_of_opaque x y hO (hmemO y hy))
          (fun y hy => by
            have hyr := hmemR y hy
            rw [pv_cmp_lt_of_opaque_other x y hO hyr.1 hyr.2]
            simp)]
      · have hE' : x.isEnum = false := by simpa using hE
        have hO' : x.isOpaque = false := by simpa using hO
        have hfE : (x :: l).filter PathValue.isEnum =
            l.filter PathValue.isEnum := by simp [List.filter, hE']
        have hfO : (x :: l).filter PathValue.isOpaque =
            l.filter PathValue.isOpaque := by simp [List.filter, hO']
        have hfR : (x :: l).filter (fun v => !v.isEnum && !v.isOpaque) =
            x :: l.filter (fun v => !v.isEnum && !v.isOpaque) := by
          simp [List.filter, hE', hO']
        rw [hfE, hfO, hfR]
        simp only [sortBy, ih]
        rw [insertBy_skip pv_cmp x _ _
          (fun y hy => pv_cmp_gt_of_not_enum x y hE' (hmemE y hy))]
        rw [insertBy_skip pv_cmp x _ _
          (fun y hy => pv_cmp_gt_of_other_opaque x y hE' hO' (hmemO y hy))]
        rw [insertBy_front pv_cmp x _
          (fun y hy => by
            have hyr := hmemR y hy
            rw [pv_cmp_eq_of_other_other x y hE' hO' hyr.1 hyr.2]
            simp)]

/-- C3: the item list produced by generate is (the renaming image of) the
name-sorted enums, then the name-sorted opaque aggregates, then every other
item in the relative order the dependency walk produced, because the
post-sort is a stable sort whose comparator orders enums before opaque
aggregates before everything else and compares only names inside the first
two groups.  The renaming map preserves positions, item kinds and item
names. -/
theorem c3_generate_order (lib : Library) (fuel : Nat) :
    (lib.generate fuel).items =
      (sortBy pv_name_cmp
          ((compact_items lib fuel (lib.dep_graph fuel).order).filter
            PathValue.isEnum) ++
        (sortBy pv_name_cmp
            ((compact_items lib fuel (lib.dep_graph fuel).order).filter
              PathValue.isOpaque) ++
          (compact_items lib fuel (lib.dep_graph fuel).order).filter
            (fun v => !v.isEnum && !v.isOpaque))).map
        (fun it => it.apply_renaming lib.config) := by
  unfold Library.generate
  rw [sortBy_pv_cmp_eq]

/-! Claim C4.  The copy loop of generate never pushes a Specialization: raw
specializations are consumed by the specialize call, whose successful values
are always monomorphized aggregates; the sort and the renaming pass preserve
this, so the panic arm of BuiltBindings::write is unreachable on generate
output. -/

theorem specialize_isStruct (lib : Library) : ∀ (fuel : Nat)
    (s : Specialization) (v : PathValue),
    Specialization.specialize lib fuel s = .ok (some v) →
    v.isStruct = true := by
  intro fuel
  induction fuel with
  | zero =>
    intro s v h
    simp [Specialization.specialize] at h
  | succ fuel ih =>
    intro s v h
    unfold Specialization.specialize at h
    split at h
    · split at h
      · split at h
        · exact absurd h (by simp)
        · exact ih _ v h
      · split at h
        · exact absurd h (by simp)
        · injection h with h₁
          injection h₁ with h₂
          subst h₂
          rfl
      · injection h with h₁
        injection h₁
      · injection h with h₁
        injection h₁
      · injection h with h₁
        injection h₁
      · exact Except.noConfusion h
    · exact Except.noConfusion h

/-- Every item the copy loop of generate accumulates is either a
monomorphized aggregate produced by specialize or a non-specialization
element of the walk order, whatever the starting accumulator held. -/
theorem compact_fold_mem (lib : Library) (fuel : Nat) :
    ∀ (ord acc : List PathValue),
      ∀ v ∈ ord.foldl (fun acc dep =>
        match dep with
        | PathValue.Struct s =>
          if !s.generic_params.isEmpty then acc else acc ++ [dep]
        | PathValue.Specialization s =>
          match Specialization.specialize lib fuel s with
          | .ok (some value) => acc ++ [value]
          | .ok Option.none => acc
          | .error _ => acc
        | _ => acc ++ [dep]) acc,
      v ∈ acc ∨ v.isStruct = true ∨
        (v ∈ ord ∧ v.isSpecialization = false) := by
  intro ord
  induction ord with
  | nil =>
    intro acc v hv
    exact Or.inl hv
  | cons d rest ih =>
    intro acc v hv
    simp only [List.foldl_cons] at hv
    rcases ih _ v hv with hacc | hstruct | hmem
    · cases d with
      | Enum e =>
        rcases List.mem_append.mp hacc with hv' | hv'
        · exact Or.inl hv'
        · refine Or.inr (Or.inr ⟨?_, ?_⟩)
          · rw [List.mem_singleton.mp hv']
            exact List.mem_cons_self _ _
          · rw [List.mem_singleton.mp hv']
            rfl
      | Struct s =>
        by_cases hg : s.generic_params.isEmpty
        · simp only [hg, Bool.not_true, Bool.false_eq_true, if_false] at hacc
          rcases List.mem_append.mp hacc with hv' | hv'
          · exact Or.inl hv'
          · refine Or.inr (Or.inr ⟨?_, ?_⟩)
            · rw [List.mem_singleton.mp hv']
              exact List.mem_cons_self _ _
            · rw [List.mem_singleton.mp hv']
              rfl
        · simp only [Bool.not_eq_true] at hg
          simp only [hg, Bool.not_false, if_true] at hacc
          exact Or.inl hacc
      | OpaqueStruct o =>
        rcases List.mem_append.mp hacc with hv' | hv'
        · exact Or.inl hv'
        · refine Or.inr (Or.inr ⟨?_, ?_⟩)
          · rw [List.mem_singleton.mp hv']
            exact List.mem_cons_self _ _
          · rw [List.mem_singleton.mp hv']
            rfl
      | Typedef t =>
        rcases List.mem_append.mp hacc with hv' | hv'
        · exact Or.inl hv'
        · refine Or.inr (Or.inr ⟨?_, ?_⟩)
          · rw [List.mem_singleton.mp hv']
            exact List.mem_cons_self _ _
          · rw [List.mem_singleton.mp hv']
            rfl
      | Specialization s =>
        have hacc' : v ∈ (match Specialization.specialize lib fuel s with
            | Except.ok (some value) => acc ++ [value]
            | Except.ok Option.none => acc
            | Except.error _ => acc) := hacc
        rcases hsp : Specialization.specialize lib fuel s with msg | oval
        · rw [hsp] at hacc'
          exact Or.inl hacc'
        · cases oval with
          | none =>
            rw [hsp] at hacc'
            exact Or.inl hacc'
          | some value =>
            rw [hsp] at hacc'
            rcases List.mem_append.mp hacc' with hv' | hv'
            · exact Or.inl hv'
            · refine Or.inr (Or.inl ?_)
              rw [List.mem_singleton.mp hv']
              exact specialize_isStruct lib fuel s value hsp
    · exact Or.inr (Or.inl hstruct)
    · exact Or.inr (Or.inr ⟨List.mem_cons_of_mem d hmem.1, hmem.2⟩)

theorem compact_items_mem (lib : Library) (fuel : Nat)
    (order : List PathValue) :
    ∀ v ∈ compact_items lib fuel order,
      v.isStruct = true ∨ (v ∈ order ∧ v.isSpecialization = false) := by
  intro v hv
  rcases compact_fold_mem lib fuel order [] v hv with h | h | h
  · exact absurd h (List.not_mem_nil v)
  · exact Or.inl h
  · exact Or.inr h

/-- The renaming pass leaves every variant other than Enum and Struct
untouched (the catch-all arm of PathValue::apply_renaming). -/
theorem apply_renaming_skip (v : PathValue) (c : Config)
    (h₁ : v.isEnum = false) (h₂ : v.isStruct = false) :
    v.apply_renaming c = v := by
  cases v <;> simp_all [PathValue.isEnum, PathValue.isStruct,
    PathValue.apply_renaming]

/-- C4: the built bindings produced by generate contain no Specialization
item, so the panic arm of BuiltBindings::write for specializations is
unreachable on generate output (for every library and every fuel). -/
theorem c4_no_specialization_written (lib : Library) (fuel : Nat) :
    (lib.generate fuel).write_would_panic = false := by
  unfold BuiltBindings.write_would_panic Library.generate
  rw [List.any_eq_false]
  intro v hv
  obtain ⟨u, hu, huv⟩ := List.mem_map.mp hv
  subst huv
  have hu₂ := (mem_sortBy pv_cmp u _).mp hu
  rcases compact_items_mem lib fuel _ u hu₂ with hstruct | ⟨_, hspec⟩
  · cases u <;> simp_all [PathValue.isStruct, PathValue.apply_renaming,
      PathValue.isSpecialization]
  · cases u <;> simp_all [PathValue.apply_renaming,
      PathValue.isSpecialization]

/-! Claim C10.  PathValue::apply_renaming leaves every variant other than
Enum and Struct unchanged, so every OpaqueStruct and Typedef item of the
built output is literally a value produced by the dependency walk. -/

/-- C10: the final renaming pass modifies only Enum and Struct items, and
every OpaqueStruct or Typedef item in the generate output is identical to a
value the dependency walk produced (it occurs in the walk order), for every
configuration and fuel. -/
theorem c10_renaming_frame :
    (∀ (c : Config) (v : PathValue), v.isEnum = false → v.isStruct = false →
       v.apply_renaming c = v) ∧
    (∀ (lib : Library) (fuel : Nat) (v : PathValue),
       v ∈ (lib.generate fuel).items →
       v.isOpaque = true ∨ v.isTypedef = true →
       v ∈ (lib.dep_graph fuel).order) := by
  constructor
  · intro c v h₁ h₂
    exact apply_renaming_skip v c h₁ h₂
  · intro lib fuel v hv hkind
    unfold Library.generate at hv
    obtain ⟨u, hu, huv⟩ := List.mem_map.mp hv
    subst huv
    have hu₂ := (mem_sortBy pv_cmp u _).mp hu
    rcases compact_items_mem lib fuel _ u hu₂ with hstruct | ⟨hmem, hspec⟩
    · cases u <;> simp_all [PathValue.isStruct, PathValue.apply_renaming,
        PathValue.isOpaque, PathValue.isTypedef]
    · cases u with
      | Enum e =>
        simp_all [PathValue.apply_renaming, PathValue.isOpaque,
          PathValue.isTypedef]
      | Struct s =>
        simp_all [PathValue.apply_renaming, PathValue.isOpaque,
          PathValue.isTypedef]
      | OpaqueStruct o =>
        simpa [PathValue.apply_renaming] using hmem
      | Typedef t =>
        simpa [PathValue.apply_renaming] using hmem
      | Specialization s =>
        simp_all [PathValue.isSpecialization]

/-- C10 witness: a typedef is untouched by renaming, and the opaque item of a
concrete generate run is a value of the walk order. -/
theorem c10_witness :
    (PathValue.Typedef c10_td).apply_renaming
        trivialConfig = PathValue.Typedef c10_td ∧
      PathValue.OpaqueStruct ⟨"B", []⟩ ∈ (c10_lib.dep_graph 2).order :=
  ⟨c10_renaming_frame.1 trivialConfig _ rfl rfl,
   c10_renaming_frame.2 c10_lib 2 _ (by decide) (Or.inl rfl)⟩

/-! Claim C8.  The claim says every aborted run exits non-zero.  main.rs
aborts the language, crate-inference and parse failures with a bare return
from main, which makes the process exit with status zero; only the
configuration-load and output-file failures abort through unwrap panics
(non-zero).  The code contradicts the documented exit-code contract. -/

/-- C8: three aborting runs, one per bare-return failure path of main
(unrecognized language, uninferrable crate name, parse failure); each run
aborts by plain return and the process exit status is zero, contradicting
the non-zero requirement. -/
theorem c8_abort_exits_zero :
    (run_main c8_env c8_args_lang = MainResult.earlyReturn ∧
      (run_main c8_env c8_args_lang).exit_code = 0) ∧
    (run_main c8_env_dir c8_args_plain = MainResult.earlyReturn ∧
      (run_main c8_env_dir c8_args_plain).exit_code = 0) ∧
    (run_main c8_env c8_args_plain = MainResult.earlyReturn ∧
      (run_main c8_env c8_args_plain).exit_code = 0) :=
  ⟨⟨rfl, rfl⟩, ⟨rfl, rfl⟩, ⟨rfl, rfl⟩⟩

/-! Claim C5.  The dependency walker: behaviour of add_deps_for_path and the
two invariants it maintains (no duplicated names in the order, and each newly
visited value is appended after everything its dependency recursion added). -/

theorem alookup_keysMatch {V : Type} (nameOf : V → String)
    (l : List (String × V)) (p : String) (x : V)
    (h : keysMatch nameOf l = true) (hx : alookup p l = some x) :
    nameOf x = p := by
  induction l with
  | nil => simp [alookup] at hx
  | cons kv rest ih =>
    obtain ⟨k, v⟩ := kv
    simp only [keysMatch, List.all_cons, Bool.and_eq_true] at h
    simp only [alookup] at hx
    by_cases hp : p = k
    · rw [if_pos hp] at hx
      injection hx with hx
      subst hx
      rw [hp]
      exact eq_of_beq h.1
    · rw [if_neg hp] at hx
      exact ih h.2 hx

theorem resolve_path_name (lib : Library) (hwf : lib.wf = true)
    (p : String) (v : PathValue) (h : lib.resolve_path p = some v) :
    v.name = p := by
  have hwf' := hwf
  simp only [Library.wf, Bool.and_eq_true] at hwf'
  obtain ⟨⟨⟨⟨h₁, h₂⟩, h₃⟩, h₄⟩, h₅⟩ := hwf'
  cases he₁ : alookup p lib.enums with
  | some x =>
    simp only [Library.resolve_path, he₁] at h
    injection h with h'
    rw [← h']
    exact alookup_keysMatch Enum.name lib.enums p x h₁ he₁
  | none =>
    cases he₂ : alookup p lib.structs with
    | some x =>
      simp only [Library.resolve_path, he₁, he₂] at h
      injection h with h'
      rw [← h']
      exact alookup_keysMatch Struct.name lib.structs p x h₂ he₂
    | none =>
      cases he₃ : alookup p lib.opaque_structs with
      | some x =>
        simp only [Library.resolve_path, he₁, he₂, he₃] at h
        injection h with h'
        rw [← h']
        exact alookup_keysMatch OpaqueStruct.name lib.opaque_structs p x h₃ he₃
      | none =>
        cases he₄ : alookup p lib.typedefs with
        | some x =>
          simp only [Library.resolve_path, he₁, he₂, he₃, he₄] at h
          injection h with h'
          rw [← h']
          exact alookup_keysMatch Typedef.name lib.typedefs p x h₄ he₄
        | none =>
          cases he₅ : alookup p lib.specializations with
          | some x =>
            simp only [Library.resolve_path, he₁, he₂, he₃, he₄, he₅] at h
            injection h with h'
            rw [← h']
            exact alookup_keysMatch Specialization.name lib.specializations
              p x h₅ he₅
          | none =>
            simp only [Library.resolve_path, he₁, he₂, he₃, he₄, he₅] at h
            exact Option.noConfusion h

theorem walkOk_id : WalkOk (fun g => g) := by
  intro g hg
  exact ⟨hg, fun n hn => hn, [], by simp, by simp⟩

theorem walkOk_comp {F G : DependencyGraph → DependencyGraph}
    (hF : WalkOk F) (hG : WalkOk G) : WalkOk (fun g => G (F g)) := by
  intro g hg
  obtain ⟨hInvF, hMonoF, ΔF, hOrdF, hPropF⟩ := hF g hg
  obtain ⟨hInvG, hMonoG, ΔG, hOrdG, hPropG⟩ := hG (F g) hInvF
  refine ⟨hInvG, fun n hn => hMonoG n (hMonoF n hn), ΔF ++ ΔG, ?_, ?_⟩
  · rw [hOrdG, hOrdF, List.append_assoc]
  · intro v hv
    rcases List.mem_append.mp hv with hv | hv
    · obtain ⟨hin, hout⟩ := hPropF v hv
      exact ⟨hMonoG _ hin, hout⟩
    · obtain ⟨hin, hout⟩ := hPropG v hv
      exact ⟨hin, fun hmem => hout (hMonoF _ hmem)⟩

theorem walkOk_foldl (step : DepCall → DependencyGraph → DependencyGraph)
    (hstep : ∀ c, WalkOk (step c)) :
    ∀ calls : List DepCall,
      WalkOk (fun g => calls.foldl (fun g c => step c g) g) := by
  intro calls
  induction calls with
  | nil => exact walkOk_id
  | cons c rest ih =>
    have h := walkOk_comp (hstep c) ih
    intro g hg
    simpa [List.foldl_cons] using h g hg

/-- One unfolding step of add_deps_for_path in the interesting case: the name
resolves and is unvisited.  The conclusion packages the graph invariant, the
growth of the visited set, and the decomposition of the new order as the old
order, then exactly what the dependency recursion appended, then the value. -/
theorem add_deps_step (lib : Library) (fuel : Nat) (p : String)
    (g : DependencyGraph) (value : PathValue)
    (hres : lib.resolve_path p = some value)
    (hvis : p ∉ g.items)
    (hvname : value.name = p)
    (hfold : WalkOk (fun h => lib.run_dep_calls fuel value.depCalls h))
    (hg : graphInv g) :
    graphInv (lib.add_deps_for_path (fuel + 1) p g) ∧
    (∀ n ∈ g.items, n ∈ (lib.add_deps_for_path (fuel + 1) p g).items) ∧
    p ∈ (lib.add_deps_for_path (fuel + 1) p g).items ∧
    ∃ mid,
      (lib.run_dep_calls fuel value.depCalls ⟨g.order, p :: g.items⟩).order =
        g.order ++ mid ∧
      (lib.add_deps_for_path (fuel + 1) p g).order =
        g.order ++ mid ++ [value] ∧
      (∀ w ∈ mid, w.name ∈ (lib.add_deps_for_path (fuel + 1) p g).items ∧
        w.name ∉ g.items) := by
  have hcont : ¬ (g.items.contains p = true) := by
    intro hc
    exact hvis (by simpa using hc)
  set R := lib.run_dep_calls fuel value.depCalls ⟨g.order, p :: g.items⟩
    with hRdef
  have heq : lib.add_deps_for_path (fuel + 1) p g =
      ⟨R.order ++ [value], R.items⟩ := by
    rw [hRdef]
    simp only [Library.add_deps_for_path, Library.run_dep_calls, hres,
      if_neg hcont]
  have hg₁ : graphInv ⟨g.order, p :: g.items⟩ :=
    ⟨hg.1, fun n hn => List.mem_cons_of_mem _ (hg.2 n hn)⟩
  obtain ⟨hInvR, hMonoR, Δ, hOrdΔ, hPropΔ⟩ :=
    hfold ⟨g.order, p :: g.items⟩ hg₁
  have hOrdΔ' : R.order = g.order ++ Δ := hOrdΔ
  have hpR : p ∈ R.items := hMonoR p (List.mem_cons_self p g.items)
  have hname_ne : ∀ n ∈ R.order.map PathValue.name, n ≠ p := by
    intro n hn
    rw [hOrdΔ', List.map_append] at hn
    rcases List.mem_append.mp hn with hn | hn
    · intro hnp
      subst hnp
      exact hvis (hg.2 n hn)
    · obtain ⟨w, hw, hwn⟩ := List.mem_map.mp hn
      intro hnp
      have hout := (hPropΔ w hw).2
      have hwp : w.name = p := hwn.trans hnp
      exact hout (by rw [hwp]; exact List.mem_cons_self p g.items)
  have hInvNew : graphInv ⟨R.order ++ [value], R.items⟩ := by
    refine ⟨?_, ?_⟩
    · show ((R.order ++ [value]).map PathValue.name).Nodup
      rw [List.map_append, List.nodup_append]
      refine ⟨hInvR.1, by simp, ?_⟩
      intro a ha hb
      simp only [List.map_cons, List.map_nil, List.mem_singleton] at hb
      exact hname_ne a ha (hb.trans hvname)
    · show ∀ n ∈ (R.order ++ [value]).map PathValue.name, n ∈ R.items
      intro n hn
      rw [List.map_append] at hn
      rcases List.mem_append.mp hn with hn | hn
      · exact hInvR.2 n hn
      · simp only [List.map_cons, List.map_nil, List.mem_singleton] at hn
        rw [hn, hvname]
        exact hpR
  refine ⟨?_, ?_, ?_, Δ, hOrdΔ', ?_, ?_⟩
  · rw [heq]
    exact hInvNew
  · intro n hn
    rw [heq]
    exact hMonoR n (List.mem_cons_of_mem _ hn)
  · rw [heq]
    exact hpR
  · rw [heq]
    show R.order ++ [value] = g.order ++ Δ ++ [value]
    rw [hOrdΔ']
  · intro w hw
    obtain ⟨hin, hout⟩ := hPropΔ w hw
    refine ⟨?_, fun hmem => hout (List.mem_cons_of_mem _ hmem)⟩
    rw [heq]
    exact hin

/-- The walker contract holds for both walker entry points at every fuel,
over any well-formed library. -/
theorem walk_ok_all (lib : Library) (hwf : lib.wf = true) :
    ∀ fuel : Nat,
      (∀ p, WalkOk (fun g => lib.add_deps_for_path fuel p g)) ∧
      (∀ p, WalkOk (fun g => lib.add_deps_for_path_deps fuel p g)) := by
  intro fuel
  induction fuel with
  | zero =>
    constructor
    · intro p g hg
      exact ⟨hg, fun n hn => hn, [], by simp [Library.add_deps_for_path],
        by simp⟩
    · intro p g hg
      exact ⟨hg, fun n hn => hn, [],
        by simp [Library.add_deps_for_path_deps], by simp⟩
  | succ fuel ih =>
    have hstep : ∀ c : DepCall, WalkOk (fun g =>
        (match c with
         | DepCall.full q => lib.add_deps_for_path fuel q g
         | DepCall.depsOnly q => lib.add_deps_for_path_deps fuel q g)) := by
      intro c
      cases c with
      | full q => exact ih.1 q
      | depsOnly q => exact ih.2 q
    have hfold : ∀ calls, WalkOk (fun g => lib.run_dep_calls fuel calls g) :=
      fun calls => walkOk_foldl _ hstep calls
    constructor
    · intro p g hg
      cases hres : lib.resolve_path p with
      | none =>
        have heq : lib.add_deps_for_path (fuel + 1) p g = g := by
          simp [Library.add_deps_for_path, hres]
        simp only [heq]
        exact ⟨hg, fun n hn => hn, [], by simp, by simp⟩
      | some value =>
        by_cases hvis : p ∈ g.items
        · have hc : g.items.contains p = true := by simpa using hvis
          have heq : lib.add_deps_for_path (fuel + 1) p g = g := by
            simp only [Library.add_deps_for_path, hres]
            rw [if_pos hc]
          simp only [heq]
          exact ⟨hg, fun n hn => hn, [], by simp, by simp⟩
        · have hvname := resolve_path_name lib hwf p value hres
          obtain ⟨hInv, hMono, hpmem, Δ, hOrd₁, hOrd₂, hProps⟩ :=
            add_deps_step lib fuel p g value hres hvis hvname
              (hfold value.depCalls) hg
          refine ⟨hInv, hMono, Δ ++ [value], ?_, ?_⟩
          · rw [hOrd₂, List.append_assoc]
          · intro w hw
            rcases List.mem_append.mp hw with hw | hw
            · exact hProps w hw
            · rw [List.mem_singleton.mp hw, hvname]
              exact ⟨hpmem, hvis⟩
    · intro p g hg
      cases hres : lib.resolve_path p with
      | none =>
        have heq : lib.add_deps_for_path_deps (fuel + 1) p g = g := by
          simp [Library.add_deps_for_path_deps, hres]
        simp only [heq]
        exact ⟨hg, fun n hn => hn, [], by simp, by simp⟩
      | some value =>
        have heq : lib.add_deps_for_path_deps (fuel + 1) p g =
            lib.run_dep_calls fuel value.depCalls g := by
          simp only [Library.add_deps_for_path_deps, Library.run_dep_calls,
            hres]
        simp only [heq]
        exact hfold value.depCalls g hg

/-- The dependency recursion of any call list satisfies the walker contract
(over a well-formed library). -/
theorem run_dep_calls_walkOk (lib : Library) (hwf : lib.wf = true)
    (fuel : Nat) (calls : List DepCall) :
    WalkOk (fun g => lib.run_dep_calls fuel calls g) := by
  have hstep : ∀ c : DepCall, WalkOk (fun g =>
      (match c with
       | DepCall.full q => lib.add_deps_for_path fuel q g
       | DepCall.depsOnly q => lib.add_deps_for_path_deps fuel q g)) := by
    intro c
    cases c with
    | full q => exact (walk_ok_all lib hwf fuel).1 q
    | depsOnly q => exact (walk_ok_all lib hwf fuel).2 q
  exact walkOk_foldl _ hstep calls

/-- C5: add_deps_for_path resolves the name; on a resolution miss or an
already-visited name the graph is unchanged; otherwise the name enters the
visited set and the resolved value is appended to the order after exactly
the items its dependency recursion appended; consequently the order never
contains the same item name twice (the graph invariant is preserved at every
fuel, for every well-formed library). -/
theorem c5_add_deps_for_path (lib : Library) (fuel : Nat) (p : String)
    (g : DependencyGraph) (hwf : lib.wf = true) (hg : graphInv g) :
    (lib.resolve_path p = Option.none →
      lib.add_deps_for_path (fuel + 1) p g = g) ∧
    (∀ v, lib.resolve_path p = some v → p ∈ g.items →
      lib.add_deps_for_path (fuel + 1) p g = g) ∧
    (∀ v, lib.resolve_path p = some v → p ∉ g.items →
      p ∈ (lib.add_deps_for_path (fuel + 1) p g).items ∧
      ∃ mid,
        (lib.run_dep_calls fuel v.depCalls ⟨g.order, p :: g.items⟩).order =
          g.order ++ mid ∧
        (lib.add_deps_for_path (fuel + 1) p g).order =
          g.order ++ mid ++ [v]) ∧
    graphInv (lib.add_deps_for_path fuel p g) := by
  refine ⟨?_, ?_, ?_, ?_⟩
  · intro hres
    simp [Library.add_deps_for_path, hres]
  · intro v hres hvis
    have hc : g.items.contains p = true := by simpa using hvis
    simp only [Library.add_deps_for_path, hres]
    rw [if_pos hc]
  · intro v hres hvis
    have hvname := resolve_path_name lib hwf p v hres
    obtain ⟨hInv, hMono, hpmem, Δ, hOrd₁, hOrd₂, hProps⟩ :=
      add_deps_step lib fuel p g v hres hvis hvname
        (run_dep_calls_walkOk lib hwf fuel v.depCalls) hg
    exact ⟨hpmem, Δ, hOrd₁, hOrd₂⟩
  · cases fuel with
    | zero =>
      simpa [Library.add_deps_for_path] using hg
    | succ n => exact ((walk_ok_all lib hwf (n + 1)).1 p g hg).1

/-- C5 witness: the walker evaluated on the two-item library, starting from
the empty graph at the name A. -/
theorem c5_witness :
    "A" ∈ (c5_lib.add_deps_for_path 2 "A" ⟨[], []⟩).items ∧
    ∃ mid,
      (c5_lib.run_dep_calls 1
        (PathValue.Struct ⟨"A", [], [("f", Ty.path "B" [])], []⟩).depCalls
        ⟨[], "A" :: []⟩).order = [] ++ mid ∧
      (c5_lib.add_deps_for_path 2 "A" ⟨[], []⟩).order =
        [] ++ mid ++
          [PathValue.Struct ⟨"A", [], [("f", Ty.path "B" [])], []⟩] :=
  (c5_add_deps_for_path c5_lib 1 "A" ⟨[], []⟩ (by decide)
      ⟨List.nodup_nil, by simp⟩).2.2.1
    (PathValue.Struct ⟨"A", [], [("f", Ty.path "B" [])], []⟩)
    (by decide) (by simp)

end CB
